import Mathlib

/- Verification development for the svd-indexer repository: the chunk-construction and
   deduplication pipeline (src/indexer) and the hybrid retrieval ranking pipeline
   (src/retrieval), shallowly embedded from the Python source.  Scores are modelled as
   rationals; Python strings as Lean strings over their character lists (all inputs of
   interest are ASCII). -/

/-- Python str.lower for ASCII strings (Char.toLower on each character). -/
def pyLower (s : String) : String := String.mk (s.data.map Char.toLower)

/-- Python str.upper for ASCII strings. -/
def pyUpper (s : String) : String := String.mk (s.data.map Char.toUpper)

/-- Python str.startswith. -/
def pyStartsWith (s pre : String) : Bool := pre.data.isPrefixOf s.data

/-- Python substring test (`sub in s`). -/
def pyContains (s sub : String) : Bool := s.data.tails.any (fun t => sub.data.isPrefixOf t)

/-- Python slice s[:n] for a nonnegative bound n. -/
def pySlice (s : String) (n : Nat) : String := String.mk (s.data.take n)

/-- Python truncation idiom `if len(s) > limit: s = s[:limit-3] + "..."`. -/
def pyTrunc (s : String) (limit : Nat) : String :=
  if limit < s.length then pySlice s (limit - 3) ++ "..." else s

/-- Python str.title on a single lowercase word: capitalize the first character. -/
def pyTitle (s : String) : String :=
  match s.data with
  | [] => ""
  | c :: cs => String.mk (Char.toUpper c :: cs)

/-- Python str.strip: drop whitespace from both ends. -/
def pyStrip (s : String) : String :=
  String.mk (((s.data.dropWhile Char.isWhitespace).reverse.dropWhile Char.isWhitespace).reverse)

/-- Characters matched by the token pattern [A-Za-z0-9_] (ASCII inputs). -/
def isWordChar (c : Char) : Bool := c.isAlphanum || c = '_'

/-- Maximal runs of word characters, i.e. re.findall of [A-Za-z0-9_]+ (fuel-indexed
    so the recursion is structural; the fuel is always the character count). -/
def tokenizeAux : Nat → List Char → List (List Char)
  | 0, _ => []
  | _ + 1, [] => []
  | n + 1, c :: cs =>
    if isWordChar c then
      (c :: cs.takeWhile isWordChar) :: tokenizeAux n (cs.dropWhile isWordChar)
    else
      tokenizeAux n cs

/-- All [A-Za-z0-9_]+ tokens of a string, in order. -/
def tokenize (s : String) : List String :=
  (tokenizeAux s.data.length s.data).map String.mk

/-- Lexicographic (code-point) less-or-equal on character lists: Python string comparison. -/
def charsLe : List Char → List Char → Bool
  | [], _ => true
  | _ :: _, [] => false
  | a :: as, b :: bs =>
    if a.toNat < b.toNat then true
    else if b.toNat < a.toNat then false
    else charsLe as bs

/-- Python string less-or-equal. -/
def strLe (a b : String) : Bool := charsLe a.data b.data

/-- Python string strictly-less (a sorts strictly before b). -/
def strLt (a b : String) : Bool := !(strLe b a)

/-- Insert x into an already-arranged list, after every element whose key is not
    strictly greater — the insertion step of a stable sort (x is the later element). -/
def insertStable {α : Type} (lt : α → α → Bool) (x : α) : List α → List α
  | [] => [x]
  | b :: l => if lt x b then x :: b :: l else b :: insertStable lt x l

/-- Python's stable list.sort for the strict key comparison lt. -/
def pySort {α : Type} (lt : α → α → Bool) (l : List α) : List α :=
  l.foldl (fun acc x => insertStable lt x acc) []

/-- First-occurrence deduplication (the content of a Python set built by insertion). -/
def dedupFOAux {α : Type} [DecidableEq α] (seen : List α) : List α → List α
  | [] => []
  | x :: xs => if x ∈ seen then dedupFOAux seen xs else x :: dedupFOAux (x :: seen) xs

/-- First-occurrence deduplication of a list. -/
def dedupFO {α : Type} [DecidableEq α] (l : List α) : List α := dedupFOAux [] l

/-- Python sorted(set(l)) for strings: distinct elements in ascending code-point order. -/
def sortedDedup (l : List String) : List String := pySort strLt (dedupFO l)

/-- Python dict assignment d[k] = v: overwrite in place if the key exists, else append. -/
def dictInsert {β : Type} (m : List (String × β)) (k : String) (v : β) : List (String × β) :=
  match m with
  | [] => [(k, v)]
  | (k0, v0) :: rest => if k0 = k then (k, v) :: rest else (k0, v0) :: dictInsert rest k v

/-- Python dict lookup. -/
def dictLookup {β : Type} (m : List (String × β)) (k : String) : Option β :=
  match m with
  | [] => none
  | (k0, v0) :: rest => if k0 = k then some v0 else dictLookup rest k

/-- defaultdict(set): add p to the set stored under dev, insertion-ordered keys,
    sets modelled as first-occurrence lists. -/
def multidictAdd (m : List (String × List String)) (dev p : String) :
    List (String × List String) :=
  match m with
  | [] => [(dev, [p])]
  | (d, ps) :: rest =>
    if d = dev then (d, if p ∈ ps then ps else ps ++ [p]) :: rest
    else (d, ps) :: multidictAdd rest dev p

/-- Map with a running index. -/
def mapIdxFrom {α β : Type} (f : Nat → α → β) (i : Nat) : List α → List β
  | [] => []
  | x :: xs => f i x :: mapIdxFrom f (i + 1) xs

/- ----------------------------------------------------------------------------
   MD5 (hashlib.md5(...).hexdigest()), used by the chunk builder for chunk ids.
   ---------------------------------------------------------------------------- -/

/-- 2^32, the word modulus of MD5. -/
def m32 : Nat := 4294967296

/-- Rotate a 32-bit value (as a Nat below 2^32) left by c bits, 0 ≤ c < 32. -/
def rotl32 (x c : Nat) : Nat := (x % 2 ^ (32 - c)) * 2 ^ c + x / 2 ^ (32 - c)

/-- MD5 per-round left-rotation amounts. -/
def md5S : List Nat :=
  [7, 12, 17, 22, 7, 12, 17, 22, 7, 12, 17, 22, 7, 12, 17, 22,
   5, 9, 14, 20, 5, 9, 14, 20, 5, 9, 14, 20, 5, 9, 14, 20,
   4, 11, 16, 23, 4, 11, 16, 23, 4, 11, 16, 23, 4, 11, 16, 23,
   6, 10, 15, 21, 6, 10, 15, 21, 6, 10, 15, 21, 6, 10, 15, 21]

/-- MD5 round constants floor(abs(sin(i+1)) * 2^32). -/
def md5K : List Nat :=
  [3614090360, 3905402710, 606105819, 3250441966,
   4118548399, 1200080426, 2821735955, 4249261313,
   1770035416, 2336552879, 4294925233, 2304563134,
   1804603682, 4254626195, 2792965006, 1236535329,
   4129170786, 3225465664, 643717713, 3921069994,
   3593408605, 38016083, 3634488961, 3889429448,
   568446438, 3275163606, 4107603335, 1163531501,
   2850285829, 4243563512, 1735328473, 2368359562,
   4294588738, 2272392833, 1839030562, 4259657740,
   2763975236, 1272893353, 4139469664, 3200236656,
   681279174, 3936430074, 3572445317, 76029189,
   3654602809, 3873151461, 530742520, 3299628645,
   4096336452, 1126891415, 2878612391, 4237533241,
   1700485571, 2399980690, 4293915773, 2240044497,
   1873313359, 4264355552, 2734768916, 1309151649,
   4149444226, 3174756917, 718787259, 3951481745]

/-- Little-endian byte expansion of a number, fixed width. -/
def leBytes (n : Nat) : Nat → List Nat
  | 0 => []
  | c + 1 => n % 256 :: leBytes (n / 256) c

/-- MD5 padding: 0x80, zeros to 56 mod 64, then the 64-bit little-endian bit length. -/
def md5Pad (msg : List Nat) : List Nat :=
  msg ++ [128] ++ List.replicate ((56 + 64 - (msg.length + 1) % 64) % 64) 0 ++
    leBytes (8 * msg.length) 8

/-- Combine groups of 4 bytes into little-endian 32-bit words. -/
def chunkWords : List Nat → List Nat
  | b0 :: b1 :: b2 :: b3 :: rest =>
    (b0 + 256 * b1 + 65536 * b2 + 16777216 * b3) :: chunkWords rest
  | _ => []

/-- Split a byte list into 64-byte blocks (fuel-indexed structural recursion;
    the fuel is always the byte count, which bounds the number of blocks). -/
def chunk64Aux : Nat → List Nat → List (List Nat)
  | 0, _ => []
  | _ + 1, [] => []
  | n + 1, x :: xs => ((x :: xs).take 64) :: chunk64Aux n ((x :: xs).drop 64)

/-- Split a byte list into 64-byte blocks. -/
def chunk64 (l : List Nat) : List (List Nat) := chunk64Aux l.length l

/-- The MD5 round mixing function for round i. -/
def md5F (i b c d : Nat) : Nat :=
  if i < 16 then Nat.lor (Nat.land b c) (Nat.land (m32 - 1 - b) d)
  else if i < 32 then Nat.lor (Nat.land d b) (Nat.land (m32 - 1 - d) c)
  else if i < 48 then Nat.xor b (Nat.xor c d)
  else Nat.xor c (Nat.lor b (m32 - 1 - d))

/-- The MD5 message-word index for round i. -/
def md5G (i : Nat) : Nat :=
  if i < 16 then i
  else if i < 32 then (5 * i + 1) % 16
  else if i < 48 then (3 * i + 5) % 16
  else (7 * i) % 16

/-- One MD5 round on the (a, b, c, d) state. -/
def md5Round (M : List Nat) (st : Nat × Nat × Nat × Nat) (i : Nat) : Nat × Nat × Nat × Nat :=
  match st with
  | (a, b, c, d) =>
    let f := (md5F i b c d + a + md5K.getD i 0 + M.getD (md5G i) 0) % m32
    (d, (b + rotl32 f (md5S.getD i 0)) % m32, b, c)

/-- Process one 64-byte block. -/
def md5Block (st : Nat × Nat × Nat × Nat) (block : List Nat) : Nat × Nat × Nat × Nat :=
  let M := chunkWords block
  match st, (List.range 64).foldl (md5Round M) st with
  | (a0, b0, c0, d0), (a, b, c, d) =>
    ((a0 + a) % m32, (b0 + b) % m32, (c0 + c) % m32, (d0 + d) % m32)

/-- Lowercase hex digit. -/
def hexDigit (n : Nat) : Char :=
  if n < 10 then Char.ofNat (48 + n) else Char.ofNat (87 + n)

/-- Two lowercase hex digits of a byte. -/
def byteHex (n : Nat) : List Char := [hexDigit (n / 16), hexDigit (n % 16)]

/-- Hex rendering of a 32-bit word, least significant byte first (MD5 digest order). -/
def wordHexLE (w : Nat) : List Char :=
  byteHex (w % 256) ++ byteHex (w / 256 % 256) ++ byteHex (w / 65536 % 256) ++
    byteHex (w / 16777216 % 256)

/-- hashlib.md5(s.encode()).hexdigest() for an ASCII string s. -/
def md5hex (s : String) : String :=
  let msg := s.data.map Char.toNat
  match (chunk64 (md5Pad msg)).foldl md5Block
      (1732584193, 4023233417, 2562383102, 271733878) with
  | (a, b, c, d) => String.mk (wordHexLE a ++ wordHexLE b ++ wordHexLE c ++ wordHexLE d)

/-- hashlib.md5(s.encode()).hexdigest()[:8]. -/
def md5hex8 (s : String) : String := pySlice (md5hex s) 8

/- ----------------------------------------------------------------------------
   Data model (src/indexer/models.py)
   ---------------------------------------------------------------------------- -/

/-- A bit field within a register (models.ParsedField). -/
structure ParsedField where
  name : String
  description : Option String
  bit_offset : Nat
  bit_width : Nat
  bit_range : String
  access : Option String
deriving DecidableEq, Inhabited

/-- Complete register information extracted from SVD (models.ParsedRegister).
    The three aggregation attributes are populated only by deduplication. -/
structure ParsedRegister where
  device : String
  device_series : Option String
  peripheral : String
  peripheral_description : Option String
  peripheral_group : Option String
  register : String
  register_description : Option String
  base_address : String
  address_offset : String
  full_address : String
  size : Nat
  access : Option String
  reset_value : Option String
  fields : List ParsedField
  devices : Option (List String) := none
  peripheral_instances : Option (List String) := none
  address_map : Option (List (String × String)) := none
deriving DecidableEq, Inhabited

/-- Python truthiness of an optional string (None and "" are falsy). -/
def optStrTruthy : Option String → Bool
  | none => false
  | some s => s != ""

/-- Python `a or b` for an optional string with a string fallback (None/"" falsy). -/
def pyOrElse (a : Option String) (b : String) : String :=
  match a with
  | some s => if s = "" then b else s
  | none => b

/- ----------------------------------------------------------------------------
   Generalized deduplicator (src/indexer/deduplicator.py)
   ---------------------------------------------------------------------------- -/

/-- Python sorted(fields, key=lambda f: f.name) — stable sort by field name. -/
def sortFieldsByName (fs : List ParsedField) : List ParsedField :=
  pySort (fun a b => strLt a.name b.name) fs

/-- _make_dedup_key: (peripheral family — the explicit group or the first 4 characters
    of the peripheral name, register name, "name@offset:width,..." field signature). -/
def _make_dedup_key (r : ParsedRegister) : String × String × String :=
  let peripheral_family := pyOrElse r.peripheral_group (pySlice r.peripheral 4)
  let field_signature :=
    String.intercalate "," ((sortFieldsByName r.fields).map (fun f =>
      f.name ++ "@" ++ toString f.bit_offset ++ ":" ++ toString f.bit_width))
  (peripheral_family, r.register, field_signature)

/-- The group of registers sharing dedup key k, in input order (the defaultdict bucket). -/
def groupFor (regs : List ParsedRegister) (k : String × String × String) :
    List ParsedRegister :=
  regs.filter (fun r => decide (_make_dedup_key r = k))

/-- _extract_family_from_names: vendor naming-pattern extraction. -/
def _extract_family_from_names (devices : List String) : Option String :=
  if devices = [] then none
  else if devices.all (fun d => pyStartsWith d "STM32") then
    let families := dedupFO (devices.filterMap (fun d =>
      let suffix := String.mk (d.data.drop 5)
      if 2 ≤ suffix.length then some (pySlice suffix 2) else none))
    if families.length = 1 then some ("STM32" ++ families.headD "" ++ "xx")
    else if 1 < families.length then some "STM32 (multiple families)"
    else none
  else if devices.all (fun d => pyStartsWith d "nRF") then
    let families := dedupFO (devices.filterMap (fun d =>
      if 5 ≤ d.length then some (pySlice d 5) else none))
    if families.length = 1 then some (families.headD "" ++ "xxx")
    else if 1 < families.length then some "nRF (multiple series)"
    else none
  else if devices.all (fun d => pyStartsWith d "MK") then
    let families := dedupFO (devices.filterMap (fun d =>
      if 4 ≤ d.length then some (pySlice d 4) else none))
    if families.length = 1 then some (families.headD "" ++ "xxx")
    else if 1 < families.length then some "Kinetis (multiple series)"
    else none
  else none

/-- _get_device_family: three-tier family label (series tags, name patterns, listing). -/
def _get_device_family (register_group : List ParsedRegister) : String :=
  let series_set := dedupFO (register_group.filterMap (fun r =>
    match r.device_series with
    | some s => if s = "" then none else some s
    | none => none))
  if series_set ≠ [] then
    if series_set.length = 1 then series_set.headD ""
    else "Multiple families (" ++ toString series_set.length ++ ")"
  else
    let devices := sortedDedup (register_group.map (fun r => r.device))
    match _extract_family_from_names devices with
    | some fam => fam
    | none =>
      if devices.length = 1 then devices.headD ""
      else if devices.length ≤ 3 then String.intercalate ", " devices
      else "Multiple devices (" ++ toString devices.length ++ ")"

/-- The "device/peripheral" -> full_address dict built over a dedup group. -/
def buildAddressMap (group : List ParsedRegister) : List (String × String) :=
  group.foldl (fun m r => dictInsert m (r.device ++ "/" ++ r.peripheral) r.full_address) []

/-- The representative record deduplicate_registers emits for one group: the group's
    first record, with aggregation metadata attached and identity fields generalized
    when more than one instance/device merged (groups of size 1 pass through). -/
def mkRepresentative (group : List ParsedRegister) : ParsedRegister :=
  if group.length = 1 then group.headD default
  else
    let representative := group.headD default
    let devices := sortedDedup (group.map (fun r => r.device))
    let peripherals := sortedDedup (group.map (fun r => r.peripheral))
    let address_map := buildAddressMap group
    let rep1 := { representative with
      devices := some devices,
      peripheral_instances := some peripherals,
      address_map := some address_map }
    let rep2 :=
      if 1 < peripherals.length then
        { rep1 with peripheral := pyOrElse rep1.peripheral_group (pySlice rep1.peripheral 4) }
      else rep1
    if 1 < devices.length then { rep2 with device := _get_device_family group } else rep2

/-- deduplicate_registers: bucket by dedup key (dict insertion order: first occurrence
    of each key) and emit one representative per bucket. -/
def deduplicate_registers (registers : List ParsedRegister) : List ParsedRegister :=
  (dedupFO (registers.map _make_dedup_key)).map
    (fun k => mkRepresentative (groupFor registers k))

/- ----------------------------------------------------------------------------
   Exact-identity deduplicator.  deduplicate_registers_exact is imported and called
   by src/indexer/main.py but its definition is not under src/, so it is modelled
   from the spec here.
   ---------------------------------------------------------------------------- -/

/-- Modelled from the spec: the exact-identity dedup key of deduplicate_registers_exact
    (absent from src/) — per spec section 4.1, the hash key is built from device,
    device-series, peripheral, register, base/offset/full address, size, access,
    reset value and the sorted field list of name+offset+width. -/
structure ExactKey where
  device : String
  device_series : Option String
  peripheral : String
  register : String
  base_address : String
  address_offset : String
  full_address : String
  size : Nat
  access : Option String
  reset_value : Option String
  field_sig : List (String × Nat × Nat)
deriving DecidableEq

/-- Modelled from the spec: the exact dedup key of a register. -/
def exactKey (r : ParsedRegister) : ExactKey :=
  { device := r.device
    device_series := r.device_series
    peripheral := r.peripheral
    register := r.register
    base_address := r.base_address
    address_offset := r.address_offset
    full_address := r.full_address
    size := r.size
    access := r.access
    reset_value := r.reset_value
    field_sig := (sortFieldsByName r.fields).map (fun f => (f.name, f.bit_offset, f.bit_width)) }

/-- Modelled from the spec: the scan of deduplicate_registers_exact — keep a register
    iff its exact key was not seen earlier. -/
def dedupExactAux (seen : List ExactKey) : List ParsedRegister → List ParsedRegister
  | [] => []
  | r :: rs =>
    if exactKey r ∈ seen then dedupExactAux seen rs
    else r :: dedupExactAux (exactKey r :: seen) rs

/-- Modelled from the spec: deduplicate_registers_exact (absent from src/) — registers
    hashing identically are true duplicates; keep the first occurrence, drop the rest. -/
def deduplicate_registers_exact (registers : List ParsedRegister) : List ParsedRegister :=
  dedupExactAux [] registers

/- ----------------------------------------------------------------------------
   Chunk builder (src/indexer/chunker.py).  The global config flags are all True
   by default (src/indexer/config.py) and that ambient configuration is assumed.
   ---------------------------------------------------------------------------- -/

/-- Summary-chunk character budget (chunker.MAX_SUMMARY_CHARS). -/
def MAX_SUMMARY_CHARS : Nat := 400

/-- Detail-chunk character budget (chunker.MAX_DETAIL_CHARS). -/
def MAX_DETAIL_CHARS : Nat := 400

/-- A searchable text chunk (models.TextChunk); the metadata dict is modelled by the
    fields this development needs: the type tag, identity fields, the register names
    assigned to the chunk, and the detail part number. -/
structure TextChunk where
  id : String
  text : String
  ctype : String
  device : String
  peripheral : String
  registers : List String
  chunk_part : Nat := 0
deriving DecidableEq, Inhabited

/-- _group_registers_by_peripheral key: peripheral alone for records deduplicated
    across more than one device, else "device/peripheral". -/
def chunkGroupKey (r : ParsedRegister) : String :=
  match r.devices with
  | some ds => if 1 < ds.length then r.peripheral else r.device ++ "/" ++ r.peripheral
  | none => r.device ++ "/" ++ r.peripheral

/-- The peripheral grouping keys in dict insertion order (first appearance). -/
def chunkGroupKeys (regs : List ParsedRegister) : List String :=
  dedupFO (regs.map chunkGroupKey)

/-- The registers grouped under key k, in input order. -/
def chunkGroupFor (regs : List ParsedRegister) (k : String) : List ParsedRegister :=
  regs.filter (fun r => decide (chunkGroupKey r = k))

/-- The category a register lands in (_categorize_registers' first-match chain). -/
def registerCategory (r : ParsedRegister) : String :=
  let u := pyUpper r.register
  if ["CR", "CTL", "CTRL"].any (fun x => pyContains u x) then "control"
  else if ["SR", "STAT", "STATUS", "ISR", "FLAG"].any (fun x => pyContains u x) then "status"
  else if ["DR", "DATA", "TX", "RX", "BUF"].any (fun x => pyContains u x) then "data"
  else if ["CFG", "CONFIG", "CONF"].any (fun x => pyContains u x) then "configuration"
  else "other"

/-- _categorize_registers: buckets in fixed order, empty categories removed. -/
def _categorize_registers (regs : List ParsedRegister) :
    List (String × List ParsedRegister) :=
  (["control", "status", "data", "configuration", "other"].map
    (fun c => (c, regs.filter (fun r => decide (registerCategory r = c))))).filter
    (fun p => !p.2.isEmpty)

/-- _format_register_detailed: one register's full rendering. -/
def _format_register_detailed (register : ParsedRegister) : String :=
  let lines := ["\n" ++ register.register]
  let lines := if optStrTruthy register.register_description then
      lines ++ ["  " ++ register.register_description.getD ""] else lines
  let lines := lines ++ ["  Address: " ++ register.full_address]
  let lines := if optStrTruthy register.access then
      lines ++ ["  Access: " ++ register.access.getD ""] else lines
  let lines := if optStrTruthy register.reset_value then
      lines ++ ["  Reset: " ++ register.reset_value.getD ""] else lines
  let lines :=
    if register.fields ≠ [] then
      let field_strs := register.fields.map (fun f =>
        f.name ++ f.bit_range ++
          (if optStrTruthy f.description then " - " ++ f.description.getD "" else ""))
      lines ++ ["  Fields: " ++ String.intercalate ", " field_strs]
    else lines
  String.intercalate "\n" lines

/-- _get_configuration_hints: canned per-family configuration sequence. -/
def _get_configuration_hints (peripheral : String) : String :=
  let u := pyUpper peripheral
  if pyContains u "USART" || pyContains u "UART" then
    "Enable clock (RCC) → Configure baud rate (BRR) → Enable TX/RX (CR1) → Enable UART (CR1.UE). Key: CR1, DR, SR, BRR"
  else if pyContains u "SPI" then
    "Enable clock (RCC) → Configure mode/clock (CR1) → Enable SPI (CR1.SPE) → Write to DR. Key: CR1, CR2, DR, SR"
  else if pyContains u "I2C" then
    "Enable clock (RCC) → Configure timing (TIMINGR/CCR) → Enable I2C (CR1.PE) → Generate START. Key: CR1, CR2, SR1, SR2"
  else if pyContains u "TIM" then
    "Enable clock (RCC) → Set prescaler (PSC) → Set auto-reload (ARR) → Enable counter (CR1.CEN). PWM: Configure CCR → Set mode (CCMR) → Enable (CCER)"
  else if pyContains u "GPIO" then
    "Configure mode (MODER) → Set output (BSRR) → Read input (IDR) → Pull-up/down (PUPDR)"
  else if pyContains u "ADC" then
    "Enable clock (RCC) → Configure channels (SQR) → Start conversion (CR2.SWSTART) → Read result (DR)"
  else if pyContains u "DMA" then
    "Configure addresses (PAR/MAR) → Set count (NDTR) → Configure mode (CCR) → Enable (CCR.EN)"
  else if pyContains u "RCC" then
    "System clock configuration and peripheral clock enables"
  else if pyContains u "PWR" then
    "Power control, low-power modes, voltage regulation"
  else peripheral ++ ": System peripheral"

/-- The category-appending loop of create_peripheral_summary_chunk (break on the first
    category line that would pass the 50-character safety margin). -/
def addCategoryLines : List (String × List ParsedRegister) → List String → List String
  | [], lines => lines
  | (cat_name, cat_regs) :: rest, lines =>
    let cat_reg_names := pySort strLt (cat_regs.map (fun r => r.register))
    let cat_line := pyTitle cat_name ++ ": " ++ String.intercalate ", " cat_reg_names
    let current_text := String.intercalate "\n" lines
    if current_text.length + cat_line.length + 1 < MAX_SUMMARY_CHARS - 50 then
      addCategoryLines rest (lines ++ [cat_line])
    else lines

/-- create_peripheral_summary_chunk. -/
def create_peripheral_summary_chunk (peripheral_key : String)
    (registers : List ParsedRegister) : TextChunk :=
  let rep := registers.headD default
  let lines := ["Peripheral: " ++ rep.peripheral]
  let lines := if optStrTruthy rep.peripheral_description then
      lines ++ ["Description: " ++ pySlice (rep.peripheral_description.getD "") 100]
    else lines
  let lines := lines ++ ["Device: " ++ rep.device]
  let reg_names := pySort strLt (registers.map (fun r => r.register))
  let lines := lines ++ ["\nRegisters (" ++ toString registers.length ++ "): " ++
    String.intercalate ", " reg_names]
  let current_text := String.intercalate "\n" lines
  let remaining : Int := (MAX_SUMMARY_CHARS : Int) - current_text.length
  let lines :=
    if 100 < remaining then addCategoryLines (_categorize_registers registers) lines
    else lines
  let current_text := String.intercalate "\n" lines
  let remaining : Int := (MAX_SUMMARY_CHARS : Int) - current_text.length
  let all_fields := sortedDedup ((registers.map (fun r => r.fields.map (fun f => f.name))).flatten)
  let lines :=
    if 80 < remaining then
      if all_fields ≠ [] then
        let field_str := String.intercalate ", " all_fields
        let max_field_len : Int := remaining - 20
        let field_str :=
          if max_field_len < field_str.length then
            pySlice field_str (max_field_len - 3).toNat ++ "..."
          else field_str
        lines ++ ["\nCommon fields: " ++ field_str]
      else lines
    else lines
  let current_text := String.intercalate "\n" lines
  let remaining : Int := (MAX_SUMMARY_CHARS : Int) - current_text.length
  let lines :=
    if 60 < remaining then
      let hints := _get_configuration_hints rep.peripheral
      let hints :=
        if remaining - 10 < hints.length then pySlice hints (remaining - 13).toNat ++ "..."
        else hints
      lines ++ ["\nConfig: " ++ hints]
    else lines
  let text := pyTrunc (String.intercalate "\n" lines) MAX_SUMMARY_CHARS
  { id := rep.peripheral ++ "_summary_" ++ md5hex8 peripheral_key
    text := text
    ctype := "peripheral_summary"
    device := rep.device
    peripheral := rep.peripheral
    registers := registers.map (fun r => r.register) }

/-- Modelled from the spec: the greedy packing step of create_peripheral_detail_chunks
    (the function is called by create_chunks but absent from src/) — keep taking
    registers into the open chunk while the next register's rendering still fits the
    400-character budget, using the same fit test as _create_detail_chunk. -/
def packStep (curLen : Nat) (acc : List ParsedRegister) :
    List ParsedRegister → List ParsedRegister × List ParsedRegister
  | [] => (acc.reverse, [])
  | r :: rs =>
    let n := (_format_register_detailed r).length
    if curLen + n + 1 < MAX_DETAIL_CHARS then packStep (curLen + n + 1) (r :: acc) rs
    else (acc.reverse, r :: rs)

/-- Modelled from the spec: bin-pack the register list into detail-chunk groups; every
    group starts with at least one register so all registers are placed (fuel-indexed
    structural recursion, fuel = register count). -/
def packDetailAux : Nat → List ParsedRegister → List (List ParsedRegister)
  | 0, _ => []
  | _ + 1, [] => []
  | fuel + 1, r :: rs =>
    match packStep (_format_register_detailed r).length [r] rs with
    | (g, rest) => g :: packDetailAux fuel rest

/-- Modelled from the spec: the detail-chunk register bins of one peripheral. -/
def packDetail (regs : List ParsedRegister) : List (List ParsedRegister) :=
  packDetailAux regs.length regs

/-- One peripheral-detail chunk: header and register renderings as in
    _create_detail_chunk, with the source's truncation marker appended when the chunk
    was closed because the next register would overflow (every bin but the last). -/
def mkDetailChunk (rep : ParsedRegister) (peripheral_key : String) (chunk_index : Nat)
    (group : List ParsedRegister) (is_last : Bool) : TextChunk :=
  let reg_names := group.map (fun r => r.register)
  let lines := ["Peripheral: " ++ rep.peripheral ++ " (Detail " ++
      toString (chunk_index + 1) ++ ")",
    "Device: " ++ rep.device,
    "Registers: " ++ String.intercalate ", " reg_names ++ "\n"]
  let lines := lines ++ group.map _format_register_detailed
  let lines :=
    if is_last then lines
    else lines ++ ["\n[Additional registers truncated to fit 512 token limit]"]
  let text := pyTrunc (String.intercalate "\n" lines) MAX_DETAIL_CHARS
  { id := rep.peripheral ++ "_detail_" ++ toString chunk_index ++ "_" ++
      md5hex8 peripheral_key
    text := text
    ctype := "peripheral_detail"
    device := rep.device
    peripheral := rep.peripheral
    registers := reg_names
    chunk_part := chunk_index + 1 }

/-- Modelled from the spec: create_peripheral_detail_chunks (called by create_chunks but
    absent from src/) — iterate the peripheral's registers in order, appending each
    register's full rendering while it fits the budget; on overflow close the chunk
    (with the truncation marker) and open a new one, until all registers are placed. -/
def create_peripheral_detail_chunks (peripheral_key : String)
    (registers : List ParsedRegister) : List TextChunk :=
  let rep := registers.headD default
  let groups := packDetail registers
  mapIdxFrom (fun i g => mkDetailChunk rep peripheral_key i g (i + 1 = groups.length))
    0 groups

/-- The device → peripheral-set and device → series dicts built by the first loop of
    create_device_summary_chunks (bad device names skipped). -/
def deviceMaps (registers : List ParsedRegister) :
    List (String × List String) × List (String × String) :=
  registers.foldl (fun acc reg =>
    let devs := match reg.devices with
      | some (d :: ds) => d :: ds
      | _ => [reg.device]
    let periphs := match reg.peripheral_instances with
      | some (p :: ps) => p :: ps
      | _ => [reg.peripheral]
    devs.foldl (fun acc2 device =>
      if device = "" || device = "None" then acc2
      else
        let dp := periphs.foldl (fun m p => multidictAdd m device p) acc2.1
        let ds := match reg.device_series with
          | some s => if s = "" then acc2.2 else dictInsert acc2.2 device s
          | none => acc2.2
        (dp, ds)) acc) ([], [])

/-- One device-summary chunk (no character budget is applied to its text). -/
def mkDeviceSummaryChunk (series_map : List (String × String)) (device : String)
    (peripherals : List String) : TextChunk :=
  let timers := pySort strLt (peripherals.filter (fun p => pyStartsWith p "TIM"))
  let gpios := pySort strLt (peripherals.filter (fun p => pyStartsWith p "GPIO"))
  let uarts := pySort strLt (peripherals.filter
    (fun p => pyContains p "UART" || pyContains p "USART"))
  let spis := pySort strLt (peripherals.filter (fun p => pyStartsWith p "SPI"))
  let i2cs := pySort strLt (peripherals.filter (fun p => pyStartsWith p "I2C"))
  let adcs := pySort strLt (peripherals.filter (fun p => pyStartsWith p "ADC"))
  let dacs := pySort strLt (peripherals.filter (fun p => pyStartsWith p "DAC"))
  let dmas := pySort strLt (peripherals.filter (fun p => pyStartsWith p "DMA"))
  let usbs := pySort strLt (peripherals.filter (fun p => pyContains p "USB"))
  let cans := pySort strLt (peripherals.filter (fun p => pyContains p "CAN"))
  let categorized := timers ++ gpios ++ uarts ++ spis ++ i2cs ++ adcs ++ dacs ++
    dmas ++ usbs ++ cans
  let others := pySort strLt (peripherals.filter (fun p => !(categorized.contains p)))
  let lines := ["Device: " ++ device]
  let lines := match dictLookup series_map device with
    | some s => lines ++ ["Series: " ++ s]
    | none => lines
  let lines := lines ++
    ["\nAvailable Peripherals (" ++ toString peripherals.length ++ " total):\n"]
  let addBucket := fun (lines : List String) (label : String) (bucket : List String) =>
    if bucket ≠ [] then
      lines ++ [label ++ " (" ++ toString bucket.length ++ "): " ++
        String.intercalate ", " bucket]
    else lines
  let lines := addBucket lines "Timers" timers
  let lines := addBucket lines "GPIO" gpios
  let lines := addBucket lines "UART/USART" uarts
  let lines := addBucket lines "SPI" spis
  let lines := addBucket lines "I2C" i2cs
  let lines := addBucket lines "ADC" adcs
  let lines := addBucket lines "DAC" dacs
  let lines := addBucket lines "DMA" dmas
  let lines := addBucket lines "USB" usbs
  let lines := addBucket lines "CAN" cans
  let lines :=
    if others ≠ [] then lines ++ ["\nSystem/Other: " ++ String.intercalate ", " others]
    else lines
  { id := "device_summary_" ++ device
    text := String.intercalate "\n" lines
    ctype := "device_summary"
    device := device
    peripheral := String.intercalate " " (pySort strLt peripherals)
    registers := [] }

/-- create_device_summary_chunks: one summary chunk per (non-degenerate) device. -/
def create_device_summary_chunks (registers : List ParsedRegister) : List TextChunk :=
  match deviceMaps registers with
  | (device_peripherals, device_series) =>
    (device_peripherals.filter (fun p => (p.1 != "") && (p.1 != "None"))).map
      (fun p => mkDeviceSummaryChunk device_series p.1 p.2)

/-- create_chunks: per peripheral group one summary chunk followed by its detail
    chunks, then the device-summary chunks. -/
def create_chunks (registers : List ParsedRegister) : List TextChunk :=
  ((chunkGroupKeys registers).map (fun k =>
    let g := chunkGroupFor registers k
    create_peripheral_summary_chunk k g :: create_peripheral_detail_chunks k g)).flatten
  ++ create_device_summary_chunks registers

/- ----------------------------------------------------------------------------
   Hybrid retrieval (src/retrieval/hybrid_retriever.py, src/retrieval/reranker.py).
   Scores are rationals; the vector store's fused hits and the cross-encoder's
   sigmoid-normalized scores are consumed as external inputs, per the spec's
   external-collaborator contracts.  CPython iterates the penalty *set* in a
   hash-dependent order, so that enumeration order is passed explicitly.
   ---------------------------------------------------------------------------- -/

/-- QueryInfo: the dict produced by preprocess_query. -/
structure QueryInfo where
  raw : String
  clean : String
  tokens : List String
  peripheral_hints : List String
  register_hints : List String
  address_hints : List String
  peripheral_penalties : List String
deriving DecidableEq, Inhabited

/-- PERIPH_TRIGGERS, in dict order. -/
def PERIPH_TRIGGERS : List (String × List String) :=
  [("uart", ["UART", "USART"]), ("usart", ["USART"]), ("gpio", ["GPIO"]),
   ("dma", ["DMA"]), ("spi", ["SPI"]), ("i2c", ["I2C"]), ("tim", ["TIM"]),
   ("rcc", ["RCC"]), ("adc", ["ADC"]), ("dac", ["DAC"]), ("can", ["CAN"]),
   ("usb", ["USB"])]

/-- The register-hint shape REG_HINT_RE = ^[A-Z][A-Z0-9_]{1,15}$. -/
def isRegisterHint (t : String) : Bool :=
  match t.data with
  | [] => false
  | c :: cs =>
    (65 ≤ c.toNat && c.toNat ≤ 90) && (1 ≤ cs.length && cs.length ≤ 15) &&
      cs.all (fun d =>
        (65 ≤ d.toNat && d.toNat ≤ 90) || (48 ≤ d.toNat && d.toNat ≤ 57) || d = '_')

/-- A hexadecimal digit [0-9a-fA-F]. -/
def isHexChar (c : Char) : Bool :=
  c.isDigit || (97 ≤ c.toNat && c.toNat ≤ 102) || (65 ≤ c.toNat && c.toNat ≤ 70)

/-- ADDR_RE = \b0x[0-9a-fA-F]+\b, modelled on word-token boundaries: a token is an
    address hint when it is 0x followed by one or more hex digits. -/
def isAddressHint (t : String) : Bool :=
  match t.data with
  | '0' :: 'x' :: rest => !rest.isEmpty && rest.all isHexChar
  | _ => false

/-- preprocess_query: tokens, family/register/address hints and penalty prefixes. -/
def preprocess_query (query : String) : QueryInfo :=
  let raw := query
  let clean := pyLower (pyStrip query)
  let tokens := (tokenize clean).map pyLower
  let address_hints := (tokenize raw).filter isAddressHint
  let peripheral_hints := sortedDedup
    (((PERIPH_TRIGGERS.filter (fun p => tokens.contains p.1)).map (fun p => p.2)).flatten)
  let register_hints := sortedDedup ((tokenize raw).filter isRegisterHint)
  let pen1 :=
    if tokens.contains "dma" && !(tokens.contains "usb") then
      ["OTG_FS", "OTG_HS", "OTG", "USB"]
    else []
  let pen2 :=
    if (tokens.contains "timer" || tokens.contains "tim") && !(tokens.contains "systick")
    then ["STK", "SYSTICK"] else []
  let pen3 :=
    if tokens.contains "timer" || tokens.contains "tim" || tokens.contains "prescaler"
    then ["WWDG", "IWDG"] else []
  let pen4 :=
    if tokens.contains "i2c" && !(tokens.contains "usb") then ["OTG_FS", "OTG_HS", "USB"]
    else []
  { raw := raw
    clean := clean
    tokens := tokens
    peripheral_hints := peripheral_hints
    register_hints := register_hints
    address_hints := address_hints
    peripheral_penalties := sortedDedup (pen1 ++ pen2 ++ pen3 ++ pen4) }

/-- The ordered family-prefix list of _periph_family. -/
def famList : List String :=
  ["USART", "UART", "GPIO", "SPI", "I2C", "TIM", "RCC", "ADC", "DAC", "CAN", "USB", "OTG"]

/-- _periph_family: longest... first matching family prefix of the uppercased name. -/
def _periph_family (periph : String) : String :=
  let p := pyUpper periph
  match famList.find? (fun fam => pyStartsWith p fam) with
  | some fam => fam
  | none => p

/-- The per-hit debug trace (metadata["_debug"]), modelled by the fields this
    development inspects. -/
structure DebugInfo where
  peripheral_match : Bool := false
  register_match : Bool := false
  peripheral_penalty : Bool := false
  post_rerank_penalty : Bool := false
  penalty_applied : Option String := none
deriving DecidableEq, Inhabited

/-- A search hit flowing through the ranking pipeline. -/
structure SearchResult where
  score : ℚ
  source_id : String
  peripheral : String
  register : String
  ctype : String
  text : String
  debug : DebugInfo := {}
deriving DecidableEq, Inhabited

/-- The first penalty prefix, in the given iteration order, that the uppercased
    peripheral starts with (the for/break loop over the penalty set). -/
def firstMatch (penalties : List String) (peripheral_upper : String) : Option String :=
  penalties.find? (fun p => pyStartsWith peripheral_upper p)

/-- The boost/penalty pass of post_process on one hit; penaltyEnum is the iteration
    order of the penalty set (its contents are qi.peripheral_penalties). -/
def postProcessHit (penaltyEnum : List String) (qi : QueryInfo) (r : SearchResult) :
    SearchResult :=
  let score := r.score
  let peripheral_upper := pyUpper r.peripheral
  let pm := !qi.peripheral_hints.isEmpty &&
    qi.peripheral_hints.contains (_periph_family r.peripheral)
  let score := if pm then score * (3 / 2 : ℚ) else score
  let rm := !qi.register_hints.isEmpty &&
    (qi.register_hints.map pyUpper).contains (pyUpper r.register)
  let score := if rm then score * (7 / 5 : ℚ) else score
  let pen := (firstMatch penaltyEnum peripheral_upper).isSome
  let score := if pen then score * (1 / 2 : ℚ) else score
  { r with
    score := score
    debug := { peripheral_match := pm, register_match := rm, peripheral_penalty := pen } }

/-- The ordering key of the deterministic tie-break sorts: strictly-before means
    higher score, or equal score and strictly smaller source id. -/
def resultLt (a b : SearchResult) : Bool :=
  decide (b.score < a.score) || (decide (a.score = b.score) && strLt a.source_id b.source_id)

/-- post_process: apply domain boosts and penalties, then sort by (-score, source id). -/
def post_process (penaltyEnum : List String) (results : List SearchResult)
    (qi : QueryInfo) : List SearchResult :=
  pySort resultLt (results.map (postProcessHit penaltyEnum qi))

/-- CrossEncoderReranker.rerank on the combine_scores=True path.  The cross-encoder
    call and its sigmoid normalization are external: rerank_scores are the normalized
    per-hit relevance scores, combined as hybrid_weight * score + rerank_weight * r,
    then sorted by descending final score only (Python's stable sort). -/
def rerank (results : List SearchResult) (rerank_scores : List ℚ)
    (hybrid_weight rerank_weight : ℚ) (top_k : Option Nat) : List SearchResult :=
  let combined := List.zipWith (fun r s =>
    { r with score := hybrid_weight * r.score + rerank_weight * s }) results rerank_scores
  let sorted := pySort (fun a b => decide (b.score < a.score)) combined
  match top_k with
  | some k => sorted.take k
  | none => sorted

/-- The strong post-rerank penalty on one hit (×0.1 on the first matching prefix). -/
def postRerankHit (penaltyEnum : List String) (r : SearchResult) : SearchResult :=
  let peripheral := pyUpper r.peripheral
  match firstMatch penaltyEnum peripheral with
  | some p =>
    { r with
      score := r.score * (1 / 10 : ℚ)
      debug := { r.debug with post_rerank_penalty := true, penalty_applied := some p } }
  | none => r

/-- _apply_post_rerank_penalties: ×0.1 on penalized peripherals, then re-sort; with an
    empty penalty set the results pass through unchanged. -/
def _apply_post_rerank_penalties (penaltyEnum : List String) (results : List SearchResult)
    (qi : QueryInfo) : List SearchResult :=
  if qi.peripheral_penalties = [] then results
  else pySort resultLt (results.map (postRerankHit penaltyEnum))

/-- HybridRetriever.search: the store's fused hits (base) and the normalized
    cross-encoder scores are external inputs; penaltyEnum1/penaltyEnum2 are the two
    penalty-set iteration orders (post_process and the post-rerank pass). -/
def search (penaltyEnum1 penaltyEnum2 : List String) (query : String)
    (base : List SearchResult) (use_reranker : Bool) (rerank_scores : List ℚ)
    (top_k rerank_top_n : Nat) : List SearchResult :=
  let qi := preprocess_query query
  let boosted := post_process penaltyEnum1 base qi
  if use_reranker then
    let reranked :=
      rerank (boosted.take rerank_top_n) rerank_scores (1 / 2) (1 / 2) (some (top_k * 2))
    let final := _apply_post_rerank_penalties penaltyEnum2 reranked qi
    final.take top_k
  else
    boosted.take top_k

/-- The externally observable content of a result: everything except the debug trace. -/
def resultView (r : SearchResult) : ℚ × String × String × String × String × String :=
  (r.score, r.source_id, r.peripheral, r.register, r.ctype, r.text)

/- ----------------------------------------------------------------------------
   Lemmas: the stable sort, the string order, and the tie-break comparator.
   ---------------------------------------------------------------------------- -/

theorem mem_insertStable {α : Type} (lt : α → α → Bool) (x : α) (l : List α) (y : α) :
    y ∈ insertStable lt x l ↔ y = x ∨ y ∈ l := by
  induction l with
  | nil => simp [insertStable]
  | cons b t ih =>
    by_cases h : lt x b = true
    · simp [insertStable, h]
    · simp [insertStable, h, ih]
      tauto

theorem pairwise_insertStable {α : Type} (lt : α → α → Bool)
    (hasym : ∀ a b, lt a b = true → lt b a = false)
    (hnt : ∀ a b c, lt b a = false → lt c b = false → lt c a = false)
    (x : α) (l : List α) (h : l.Pairwise (fun a b => lt b a = false)) :
    (insertStable lt x l).Pairwise (fun a b => lt b a = false) := by
  induction l with
  | nil => simp [insertStable]
  | cons b t ih =>
    rcases List.pairwise_cons.mp h with ⟨hb, ht⟩
    by_cases hlt : lt x b = true
    · simp only [insertStable, hlt, if_true]
      refine List.pairwise_cons.mpr ⟨?_, h⟩
      intro y hy
      rcases List.mem_cons.mp hy with rfl | hyt
      · exact hasym x y hlt
      · exact hnt x b y (hasym x b hlt) (hb y hyt)
    · simp only [insertStable, hlt, if_false, Bool.false_eq_true]
      refine List.pairwise_cons.mpr ⟨?_, ih ht⟩
      intro y hy
      rcases (mem_insertStable lt x t y).mp hy with rfl | hyt
      · exact Bool.eq_false_iff.mpr hlt
      · exact hb y hyt

theorem pairwise_pySortAux {α : Type} (lt : α → α → Bool)
    (hasym : ∀ a b, lt a b = true → lt b a = false)
    (hnt : ∀ a b c, lt b a = false → lt c b = false → lt c a = false) :
    ∀ (l acc : List α), acc.Pairwise (fun a b => lt b a = false) →
      (l.foldl (fun acc x => insertStable lt x acc) acc).Pairwise
        (fun a b => lt b a = false) := by
  intro l
  induction l with
  | nil => intro acc hacc; simpa using hacc
  | cons x xs ih =>
    intro acc hacc
    exact ih (insertStable lt x acc) (pairwise_insertStable lt hasym hnt x acc hacc)

theorem pairwise_pySort {α : Type} (lt : α → α → Bool)
    (hasym : ∀ a b, lt a b = true → lt b a = false)
    (hnt : ∀ a b c, lt b a = false → lt c b = false → lt c a = false)
    (l : List α) :
    (pySort lt l).Pairwise (fun a b => lt b a = false) :=
  pairwise_pySortAux lt hasym hnt l [] (by simp)

theorem charsLe_total : ∀ x y : List Char, charsLe x y = true ∨ charsLe y x = true := by
  intro x
  induction x with
  | nil => intro y; left; simp [charsLe]
  | cons a as ih =>
    intro y
    cases y with
    | nil => right; simp [charsLe]
    | cons b bs =>
      simp only [charsLe]
      rcases Nat.lt_trichotomy a.toNat b.toNat with h | h | h
      · left; simp [h]
      · have h1 : ¬ a.toNat < b.toNat := by omega
        have h2 : ¬ b.toNat < a.toNat := by omega
        rcases ih bs with hc | hc
        · left; simp [h1, h2, hc]
        · right; simp [h1, h2, hc]
      · right; simp [h]

theorem charsLe_trans :
    ∀ x y z : List Char, charsLe x y = true → charsLe y z = true → charsLe x z = true := by
  intro x
  induction x with
  | nil => intro y z _ _; simp [charsLe]
  | cons a as ih =>
    intro y z hxy hyz
    cases y with
    | nil => simp [charsLe] at hxy
    | cons b bs =>
      cases z with
      | nil => simp [charsLe] at hyz
      | cons c cs =>
        simp only [charsLe] at hxy hyz ⊢
        rcases Nat.lt_trichotomy a.toNat b.toNat with hab | hab | hab
        · rcases Nat.lt_trichotomy b.toNat c.toNat with hbc | hbc | hbc
          · have : a.toNat < c.toNat := by omega
            simp [this]
          · have : a.toNat < c.toNat := by omega
            simp [this]
          · exfalso
            have h1 : ¬ b.toNat < c.toNat := by omega
            simp [h1, hbc] at hyz
        · rcases Nat.lt_trichotomy b.toNat c.toNat with hbc | hbc | hbc
          · have : a.toNat < c.toNat := by omega
            simp [this]
          · have h1 : ¬ a.toNat < c.toNat := by omega
            have h2 : ¬ c.toNat < a.toNat := by omega
            have h3 : ¬ a.toNat < b.toNat := by omega
            have h4 : ¬ b.toNat < a.toNat := by omega
            have h5 : ¬ b.toNat < c.toNat := by omega
            have h6 : ¬ c.toNat < b.toNat := by omega
            simp [h3, h4] at hxy
            simp [h5, h6] at hyz
            simp [h1, h2]
            exact ih bs cs hxy hyz
          · exfalso
            have h1 : ¬ b.toNat < c.toNat := by omega
            simp [h1, hbc] at hyz
        · exfalso
          have h1 : ¬ a.toNat < b.toNat := by omega
          simp [h1, hab] at hxy

theorem strLe_total (a b : String) : strLe a b = true ∨ strLe b a = true :=
  charsLe_total a.data b.data

theorem strLe_trans {a b c : String} (h1 : strLe a b = true) (h2 : strLe b c = true) :
    strLe a c = true :=
  charsLe_trans a.data b.data c.data h1 h2

theorem strLt_false_iff (a b : String) : strLt a b = false ↔ strLe b a = true := by
  simp [strLt]

theorem strLe_of_strLt {a b : String} (h : strLt a b = true) : strLe a b = true := by
  rcases strLe_total a b with h2 | h2
  · exact h2
  · rw [strLt, h2] at h
    simp at h

theorem resultLt_false_iff (x y : SearchResult) :
    resultLt x y = false ↔
      ¬ (y.score < x.score) ∧ (x.score = y.score → strLe y.source_id x.source_id = true) := by
  simp only [resultLt, Bool.or_eq_false_iff, Bool.and_eq_false_iff,
    decide_eq_false_iff_not, strLt_false_iff]
  constructor
  · rintro ⟨h1, h2⟩
    refine ⟨h1, ?_⟩
    intro heq
    rcases h2 with h2 | h2
    · exact absurd heq h2
    · exact h2
  · rintro ⟨h1, h2⟩
    refine ⟨h1, ?_⟩
    by_cases heq : x.score = y.score
    · right; exact h2 heq
    · left; exact heq

theorem resultLt_asymm (a b : SearchResult) :
    resultLt a b = true → resultLt b a = false := by
  intro h
  rw [resultLt_false_iff]
  simp only [resultLt, Bool.or_eq_true, Bool.and_eq_true, decide_eq_true_eq] at h
  rcases h with h | ⟨heq, hlt⟩
  · constructor
    · intro h2
      exact absurd (lt_trans h h2) (lt_irrefl _)
    · intro h2
      rw [h2] at h
      exact absurd h (lt_irrefl _)
  · constructor
    · intro h2
      rw [heq] at h2
      exact absurd h2 (lt_irrefl _)
    · intro _
      exact strLe_of_strLt hlt

theorem resultLt_negtrans (a b c : SearchResult) :
    resultLt b a = false → resultLt c b = false → resultLt c a = false := by
  rw [resultLt_false_iff, resultLt_false_iff, resultLt_false_iff]
  rintro ⟨hs1, h1⟩ ⟨hs2, h2⟩
  have hba : b.score ≤ a.score := not_lt.mp hs1
  have hcb : c.score ≤ b.score := not_lt.mp hs2
  constructor
  · exact not_lt.mpr (le_trans hcb hba)
  · intro heq
    have heq1 : b.score = a.score := le_antisymm hba (heq ▸ hcb)
    have heq2 : c.score = b.score := heq1 ▸ heq
    exact strLe_trans (h1 heq1) (h2 heq2)

/- ----------------------------------------------------------------------------
   Lemmas: detail-chunk packing, grouping, first-occurrence dedup, and C2.
   ---------------------------------------------------------------------------- -/

theorem packStep_eq :
    ∀ (l : List ParsedRegister) (curLen : Nat) (acc : List ParsedRegister),
      (packStep curLen acc l).1 ++ (packStep curLen acc l).2 = acc.reverse ++ l := by
  intro l
  induction l with
  | nil => intro c a; simp [packStep]
  | cons r rs ih =>
    intro c a
    by_cases h : c + (_format_register_detailed r).length + 1 < MAX_DETAIL_CHARS
    · simp only [packStep, h, if_true]
      rw [ih]
      simp
    · simp [packStep, h]

theorem packStep_rest_length :
    ∀ (l : List ParsedRegister) (curLen : Nat) (acc : List ParsedRegister),
      (packStep curLen acc l).2.length ≤ l.length := by
  intro l
  induction l with
  | nil => intro c a; simp [packStep]
  | cons r rs ih =>
    intro c a
    by_cases h : c + (_format_register_detailed r).length + 1 < MAX_DETAIL_CHARS
    · simp only [packStep, h, if_true]
      exact le_trans (ih _ _) (Nat.le_succ _)
    · simp [packStep, h]

theorem packDetailAux_flatten :
    ∀ (fuel : Nat) (l : List ParsedRegister), l.length ≤ fuel →
      (packDetailAux fuel l).flatten = l := by
  intro fuel
  induction fuel with
  | zero =>
    intro l h
    have : l = [] := List.length_eq_zero.mp (Nat.le_zero.mp h)
    subst this
    simp [packDetailAux]
  | succ n ih =>
    intro l h
    cases l with
    | nil => simp [packDetailAux]
    | cons r rs =>
      rcases hps : packStep (_format_register_detailed r).length [r] rs with ⟨g, rest⟩
      have hsplit := packStep_eq rs (_format_register_detailed r).length [r]
      have hlen := packStep_rest_length rs (_format_register_detailed r).length [r]
      rw [hps] at hsplit hlen
      simp only [packDetailAux, hps, List.flatten_cons]
      rw [ih rest (le_trans hlen (by simpa using h))]
      simpa using hsplit

theorem packDetail_flatten (regs : List ParsedRegister) :
    (packDetail regs).flatten = regs :=
  packDetailAux_flatten regs.length regs (le_refl _)

theorem packDetail_ne_nil (regs : List ParsedRegister) (h : regs ≠ []) :
    packDetail regs ≠ [] := by
  cases regs with
  | nil => exact absurd rfl h
  | cons r rs =>
    simp only [packDetail, packDetailAux]
    rcases hps : packStep (_format_register_detailed r).length [r] rs with ⟨g, rest⟩
    simp

theorem mapIdxFrom_map_proj {α β γ : Type} (f : Nat → α → β) (proj : β → γ) (g : α → γ)
    (hfg : ∀ i a, proj (f i a) = g a) :
    ∀ (l : List α) (i : Nat), (mapIdxFrom f i l).map proj = l.map g := by
  intro l
  induction l with
  | nil => intro i; simp [mapIdxFrom]
  | cons x xs ih => intro i; simp [mapIdxFrom, hfg, ih]

theorem mapIdxFrom_length {α β : Type} (f : Nat → α → β) :
    ∀ (l : List α) (i : Nat), (mapIdxFrom f i l).length = l.length := by
  intro l
  induction l with
  | nil => intro i; simp [mapIdxFrom]
  | cons x xs ih => intro i; simp [mapIdxFrom, ih]

theorem filter_mapIdxFrom_false {α β : Type} (f : Nat → α → β) (p : β → Bool)
    (hp : ∀ i a, p (f i a) = false) :
    ∀ (l : List α) (i : Nat), (mapIdxFrom f i l).filter p = [] := by
  intro l
  induction l with
  | nil => intro i; simp [mapIdxFrom]
  | cons x xs ih => intro i; simp [mapIdxFrom, List.filter_cons, hp, ih]

theorem sublist_flatten_of_mem {α : Type} {l : List α} {L : List (List α)} (h : l ∈ L) :
    l.Sublist L.flatten := by
  induction L with
  | nil => simp at h
  | cons a L ih =>
    rcases List.mem_cons.mp h with rfl | h2
    · simp only [List.flatten_cons]
      exact List.sublist_append_left l L.flatten
    · simpa using (ih h2).trans (List.sublist_append_right a L.flatten)

def isSummaryChunk (c : TextChunk) : Bool := c.ctype == "peripheral_summary"

theorem create_peripheral_detail_chunks_registers (k : String)
    (regs : List ParsedRegister) :
    ((create_peripheral_detail_chunks k regs).map (fun c => c.registers)).flatten =
      regs.map (fun r => r.register) := by
  simp only [create_peripheral_detail_chunks]
  have hmap := mapIdxFrom_map_proj
    (fun i g => mkDetailChunk (regs.headD default) k i g (decide (i + 1 = (packDetail regs).length)))
    (fun c => c.registers) (fun g : List ParsedRegister => g.map (fun r => r.register))
    (fun i a => by simp [mkDetailChunk]) (packDetail regs) 0
  rw [hmap, ← List.map_flatten, packDetail_flatten]

theorem mem_dedupFOAux {α : Type} [DecidableEq α] :
    ∀ (l seen : List α) (x : α), x ∈ dedupFOAux seen l ↔ x ∈ l ∧ x ∉ seen := by
  intro l
  induction l with
  | nil => intro seen x; simp [dedupFOAux]
  | cons y ys ih =>
    intro seen x
    by_cases h : y ∈ seen
    · rw [dedupFOAux, if_pos h, ih]
      constructor
      · rintro ⟨hx, hs⟩
        exact ⟨List.mem_cons_of_mem _ hx, hs⟩
      · rintro ⟨hx, hs⟩
        rcases List.mem_cons.mp hx with rfl | hx2
        · exact absurd h hs
        · exact ⟨hx2, hs⟩
    · rw [dedupFOAux, if_neg h]
      constructor
      · intro hx
        rcases List.mem_cons.mp hx with rfl | hx2
        · exact ⟨List.mem_cons_self _ _, h⟩
        · rcases (ih (y :: seen) x).mp hx2 with ⟨h1, h2⟩
          exact ⟨List.mem_cons_of_mem _ h1, fun hs => h2 (List.mem_cons_of_mem _ hs)⟩
      · rintro ⟨hx, hs⟩
        rcases List.mem_cons.mp hx with rfl | hx2
        · exact List.mem_cons_self _ _
        · by_cases hxy : x = y
          · subst hxy; exact List.mem_cons_self _ _
          · exact List.mem_cons_of_mem _ ((ih (y :: seen) x).mpr
              ⟨hx2, fun hm => (List.mem_cons.mp hm).elim hxy hs⟩)

theorem nodup_dedupFOAux {α : Type} [DecidableEq α] :
    ∀ (l seen : List α), (dedupFOAux seen l).Nodup := by
  intro l
  induction l with
  | nil => intro seen; simp [dedupFOAux]
  | cons y ys ih =>
    intro seen
    by_cases h : y ∈ seen
    · rw [dedupFOAux, if_pos h]
      exact ih seen
    · rw [dedupFOAux, if_neg h]
      refine List.nodup_cons.mpr ⟨?_, ih (y :: seen)⟩
      intro hmem
      exact ((mem_dedupFOAux ys (y :: seen) y).mp hmem).2 (List.mem_cons_self _ _)

theorem mem_dedupFO {α : Type} [DecidableEq α] (l : List α) (x : α) :
    x ∈ dedupFO l ↔ x ∈ l := by
  rw [dedupFO, mem_dedupFOAux]
  simp

theorem nodup_dedupFO {α : Type} [DecidableEq α] (l : List α) : (dedupFO l).Nodup :=
  nodup_dedupFOAux l []

theorem filter_eq_nil_of_forall {α : Type} (p : α → Bool) :
    ∀ (l : List α), (∀ x ∈ l, p x = false) → l.filter p = [] := by
  intro l
  induction l with
  | nil => intro _; rfl
  | cons y ys ih =>
    intro h
    rw [List.filter_cons, h y (List.mem_cons_self _ _)]
    exact ih (fun x hx => h x (List.mem_cons_of_mem _ hx))

theorem filter_eq_singleton_of_nodup {α : Type} [DecidableEq α] :
    ∀ (l : List α), l.Nodup → ∀ k, k ∈ l → l.filter (fun x => decide (x = k)) = [k] := by
  intro l
  induction l with
  | nil => intro _ k hk; simp at hk
  | cons y ys ih =>
    intro hnd k hk
    rcases List.nodup_cons.mp hnd with ⟨hy, hys⟩
    rcases List.mem_cons.mp hk with rfl | hk2
    · rw [List.filter_cons]
      simp only [decide_True, if_true]
      have : ys.filter (fun x => decide (x = k)) = [] :=
        filter_eq_nil_of_forall _ ys (fun x hx => by
          simp only [decide_eq_false_iff_not]
          intro hxk
          exact hy (hxk ▸ hx))
      rw [this]
    · rw [List.filter_cons]
      have hyk : (decide (y = k)) = false := by
        simp only [decide_eq_false_iff_not]
        intro h
        exact hy (h ▸ hk2)
      rw [hyk]
      simp only [Bool.false_eq_true, if_false]
      exact ih hys k hk2

theorem filter_map_false {α β : Type} (f : α → β) (p : β → Bool)
    (hp : ∀ a, p (f a) = false) (l : List α) : (l.map f).filter p = [] :=
  filter_eq_nil_of_forall p (l.map f) (by
    intro x hx
    rcases List.mem_map.mp hx with ⟨a, _, rfl⟩
    exact hp a)

theorem isSummaryChunk_detail (rep : ParsedRegister) (k : String) (i : Nat)
    (g : List ParsedRegister) (b : Bool) :
    isSummaryChunk (mkDetailChunk rep k i g b) = false := by
  simp [isSummaryChunk, mkDetailChunk]

theorem isSummaryChunk_device (sm : List (String × String)) (d : String)
    (ps : List String) : isSummaryChunk (mkDeviceSummaryChunk sm d ps) = false := by
  simp [isSummaryChunk, mkDeviceSummaryChunk]

theorem chunkGroupFor_ne_nil (regs : List ParsedRegister) (k : String)
    (hk : k ∈ chunkGroupKeys regs) : chunkGroupFor regs k ≠ [] := by
  rw [chunkGroupKeys, mem_dedupFO] at hk
  rcases List.mem_map.mp hk with ⟨r, hr, rfl⟩
  intro hnil
  have hmem : r ∈ chunkGroupFor regs (chunkGroupKey r) := by
    rw [chunkGroupFor, List.mem_filter]
    exact ⟨hr, by simp⟩
  rw [hnil] at hmem
  exact List.not_mem_nil r hmem

theorem filter_summary_details (k : String) (g : List ParsedRegister) :
    (create_peripheral_detail_chunks k g).filter isSummaryChunk = [] := by
  simp only [create_peripheral_detail_chunks]
  exact filter_mapIdxFrom_false _ _ (fun i a => isSummaryChunk_detail _ _ _ _ _) _ 0

theorem isSummaryChunk_summary (k : String) (g : List ParsedRegister) :
    isSummaryChunk (create_peripheral_summary_chunk k g) = true := rfl

theorem filter_summary_device (regs : List ParsedRegister) :
    (create_device_summary_chunks regs).filter isSummaryChunk = [] := by
  rw [create_device_summary_chunks]
  rcases hdm : deviceMaps regs with ⟨dp, ds⟩
  simp only [hdm]
  exact filter_map_false (fun q : String × List String => mkDeviceSummaryChunk ds q.1 q.2)
    isSummaryChunk (fun q => isSummaryChunk_device ds q.1 q.2) _

theorem summary_count_blocks (regs : List ParsedRegister) :
    ∀ keys : List String,
      (((keys.map (fun k => create_peripheral_summary_chunk k (chunkGroupFor regs k) ::
          create_peripheral_detail_chunks k (chunkGroupFor regs k))).flatten).filter
        isSummaryChunk).length = keys.length := by
  intro keys
  induction keys with
  | nil => rfl
  | cons k ks ih =>
    simp only [List.map_cons, List.flatten_cons, List.filter_cons, List.filter_append,
      isSummaryChunk_summary, if_true, filter_summary_details, List.nil_append]
    rw [List.length_append, ih]
    simp [Nat.add_comm]

/-- C2: for every non-empty register list, create_chunks emits one summary chunk per
    peripheral group (counted over the whole batch and present for each group) plus one
    or more peripheral-detail chunks per group, emitted inside the batch, whose register
    assignments concatenate — in order — to exactly the group's register list, so every
    register of the peripheral is placed in some detail chunk (the packing loop itself,
    create_peripheral_detail_chunks, is modelled from the spec). -/
theorem claim_C2_create_chunks_dual_level (regs : List ParsedRegister)
    (_hne : regs ≠ []) :
    ((create_chunks regs).filter isSummaryChunk).length = (chunkGroupKeys regs).length
    ∧ ∀ k ∈ chunkGroupKeys regs,
        create_peripheral_summary_chunk k (chunkGroupFor regs k) ∈ create_chunks regs
        ∧ 1 ≤ (create_peripheral_detail_chunks k (chunkGroupFor regs k)).length
        ∧ (create_peripheral_detail_chunks k (chunkGroupFor regs k)).Sublist
            (create_chunks regs)
        ∧ ((create_peripheral_detail_chunks k (chunkGroupFor regs k)).map
            (fun c => c.registers)).flatten =
          (chunkGroupFor regs k).map (fun r => r.register) := by
  constructor
  · rw [create_chunks, List.filter_append, filter_summary_device, List.append_nil]
    exact summary_count_blocks regs (chunkGroupKeys regs)
  · intro k hk
    have hblock : (create_peripheral_summary_chunk k (chunkGroupFor regs k) ::
        create_peripheral_detail_chunks k (chunkGroupFor regs k)) ∈
        (chunkGroupKeys regs).map (fun k => create_peripheral_summary_chunk k
          (chunkGroupFor regs k) :: create_peripheral_detail_chunks k (chunkGroupFor regs k)) :=
      List.mem_map_of_mem _ hk
    refine ⟨?_, ?_, ?_, ?_⟩
    · exact List.mem_append.mpr (Or.inl (List.mem_flatten.mpr
        ⟨_, hblock, List.mem_cons_self _ _⟩))
    · simp only [create_peripheral_detail_chunks]
      rw [mapIdxFrom_length]
      exact List.length_pos.mpr (packDetail_ne_nil _ (chunkGroupFor_ne_nil regs k hk))
    · exact ((List.Sublist.cons _ (List.Sublist.refl _)).trans
        (sublist_flatten_of_mem hblock)).trans (List.sublist_append_left _ _)
    · exact create_peripheral_detail_chunks_registers k (chunkGroupFor regs k)

/- ----------------------------------------------------------------------------
   C5: chunk text budgets.
   ---------------------------------------------------------------------------- -/

theorem string_mk_length (l : List Char) : (String.mk l).length = l.length := rfl

theorem pySlice_length (s : String) (n : Nat) : (pySlice s n).length ≤ n := by
  rw [pySlice, string_mk_length]
  exact le_trans (List.length_take_le n s.data) (le_refl n)

theorem pyTrunc_le (s : String) : (pyTrunc s MAX_SUMMARY_CHARS).length ≤ 400 := by
  rw [pyTrunc]
  split
  · rw [String.length_append]
    have h1 : (pySlice s (MAX_SUMMARY_CHARS - 3)).length ≤ 397 := pySlice_length s 397
    have h2 : ("..." : String).length = 3 := rfl
    omega
  · next h =>
    rw [MAX_SUMMARY_CHARS] at h
    omega

theorem summary_text_le (k : String) (g : List ParsedRegister) :
    (create_peripheral_summary_chunk k g).text.length ≤ 400 := by
  simp only [create_peripheral_summary_chunk]
  exact pyTrunc_le _

theorem detail_text_le (rep : ParsedRegister) (k : String) (i : Nat)
    (g : List ParsedRegister) (b : Bool) :
    (mkDetailChunk rep k i g b).text.length ≤ 400 := by
  simp only [mkDetailChunk]
  exact pyTrunc_le _

theorem mem_mapIdxFrom {α β : Type} (f : Nat → α → β) :
    ∀ (l : List α) (i : Nat) (y : β), y ∈ mapIdxFrom f i l → ∃ j a, a ∈ l ∧ y = f j a := by
  intro l
  induction l with
  | nil => intro i y h; simp [mapIdxFrom] at h
  | cons x xs ih =>
    intro i y h
    rcases List.mem_cons.mp h with rfl | h2
    · exact ⟨i, x, List.mem_cons_self _ _, rfl⟩
    · rcases ih (i + 1) y h2 with ⟨j, a, ha, rfl⟩
      exact ⟨j, a, List.mem_cons_of_mem _ ha, rfl⟩

theorem device_chunk_ctype (sm : List (String × String)) (d : String) (ps : List String) :
    (mkDeviceSummaryChunk sm d ps).ctype = "device_summary" := rfl

/-- C5 (amended): every peripheral-summary and peripheral-detail chunk produced by
    create_chunks has text of at most its declared 400-character budget after the final
    hard truncation; device-summary chunks carry no such budget (see the
    counterexample). -/
theorem claim_C5_chunk_budget (regs : List ParsedRegister) (c : TextChunk)
    (hc : c ∈ create_chunks regs)
    (hk : c.ctype = "peripheral_summary" ∨ c.ctype = "peripheral_detail") :
    c.text.length ≤ 400 := by
  rw [create_chunks] at hc
  rcases List.mem_append.mp hc with hc1 | hc2
  · rcases List.mem_flatten.mp hc1 with ⟨block, hb, hcb⟩
    rcases List.mem_map.mp hb with ⟨k, _, rfl⟩
    rcases List.mem_cons.mp hcb with rfl | hdet
    · exact summary_text_le _ _
    · simp only [create_peripheral_detail_chunks] at hdet
      rcases mem_mapIdxFrom _ _ _ _ hdet with ⟨j, a, _, rfl⟩
      exact detail_text_le _ _ _ _ _
  · exfalso
    rw [create_device_summary_chunks] at hc2
    rcases hdm : deviceMaps regs with ⟨dp, ds⟩
    rw [hdm] at hc2
    rcases List.mem_map.mp hc2 with ⟨q, _, rfl⟩
    rcases hk with hk | hk <;> rw [device_chunk_ctype] at hk <;> simp at hk

def c5sampleReg : ParsedRegister :=
  { device := String.mk (List.replicate 401 'D'), device_series := none,
    peripheral := "P1", peripheral_description := none, peripheral_group := none,
    register := "R1", register_description := none, base_address := "0x0",
    address_offset := "0x0", full_address := "0x0", size := 32, access := none,
    reset_value := none, fields := [] }

set_option maxRecDepth 20000 in
/-- C5 counterexample: a device-summary chunk generated by create_chunks whose text
    exceeds 400 characters — the device-summary builder enforces no budget, so the
    claim "every chunk is at most its declared budget" fails as stated. -/
theorem claim_C5_counterexample :
    ∃ c ∈ create_chunks [c5sampleReg], c.ctype = "device_summary" ∧ 400 < c.text.length := by
  decide

set_option maxRecDepth 20000 in
/-- C5 witness. -/
theorem claim_C5_witness :
    ((create_chunks [c5sampleReg]).headD default).text.length ≤ 400 :=
  claim_C5_chunk_budget [c5sampleReg] ((create_chunks [c5sampleReg]).headD default)
    (by decide) (by decide)

/-- A minimal single-register input for the C2 witness. -/
def c2sampleReg : ParsedRegister :=
  { device := "STM32F411", device_series := none, peripheral := "USART1",
    peripheral_description := none, peripheral_group := none, register := "DR",
    register_description := none, base_address := "0x40011000", address_offset := "0x04",
    full_address := "0x40011004", size := 32, access := none, reset_value := none,
    fields := [] }

set_option maxRecDepth 20000 in
/-- C2 witness. -/
theorem claim_C2_witness :
    ((create_chunks [c2sampleReg]).filter isSummaryChunk).length =
      (chunkGroupKeys [c2sampleReg]).length :=
  (claim_C2_create_chunks_dual_level [c2sampleReg] (by decide)).1

/- ----------------------------------------------------------------------------
   C6: chunk id generation and collisions.
   ---------------------------------------------------------------------------- -/

/-- The id formulas of all chunks a batch generates, in emission order: summary and
    detail ids per peripheral group, then device-summary ids. -/
def chunkIdsSpec (regs : List ParsedRegister) : List String :=
  ((chunkGroupKeys regs).map (fun k =>
    let g := chunkGroupFor regs k
    ((g.headD default).peripheral ++ "_summary_" ++ md5hex8 k) ::
      (List.range' 0 (packDetail g).length).map (fun i =>
        (g.headD default).peripheral ++ "_detail_" ++ toString i ++ "_" ++ md5hex8 k))).flatten
  ++ ((deviceMaps regs).1.filter (fun p => (p.1 != "") && (p.1 != "None"))).map
      (fun p => "device_summary_" ++ p.1)

theorem mapIdxFrom_map_proj_idx {α β γ : Type} (f : Nat → α → β) (proj : β → γ)
    (g : Nat → γ) (hfg : ∀ i a, proj (f i a) = g i) :
    ∀ (l : List α) (i : Nat), (mapIdxFrom f i l).map proj = (List.range' i l.length).map g := by
  intro l
  induction l with
  | nil => intro i; simp [mapIdxFrom]
  | cons x xs ih =>
    intro i
    simp only [mapIdxFrom, List.map_cons, List.length_cons, List.range', hfg, ih]

/-- C6 (amended): the chunk builder performs no id collision detection or suffixing —
    the ids of the returned chunks are exactly the generated id formulas, in order, so
    chunks whose generated ids coincide are all kept, unchanged (none dropped). -/
theorem claim_C6_ids_pass_through (regs : List ParsedRegister) :
    (create_chunks regs).map (fun c => c.id) = chunkIdsSpec regs := by
  rw [create_chunks, chunkIdsSpec, List.map_append]
  congr 1
  · rw [List.map_flatten, List.map_map]
    congr 1
    apply List.map_congr_left
    intro k _
    simp only [Function.comp_apply, List.map_cons]
    congr 1
    simp only [create_peripheral_detail_chunks]
    exact mapIdxFrom_map_proj_idx
      (fun i g2 => mkDetailChunk ((chunkGroupFor regs k).headD default) k i g2
        (decide (i + 1 = (packDetail (chunkGroupFor regs k)).length)))
      (fun c => c.id)
      (fun i => ((chunkGroupFor regs k).headD default).peripheral ++ "_detail_" ++
        toString i ++ "_" ++ md5hex8 k)
      (fun i a => rfl) (packDetail (chunkGroupFor regs k)) 0
  · rw [create_device_summary_chunks]
    rcases hdm : deviceMaps regs with ⟨dp, ds⟩
    simp only [hdm, List.map_map]
    rfl

def c6reg1 : ParsedRegister :=
  { device := "DEV008E1F", device_series := none, peripheral := "UART1",
    peripheral_description := none, peripheral_group := none, register := "DR",
    register_description := none, base_address := "0x0", address_offset := "0x0",
    full_address := "0x0", size := 32, access := none, reset_value := none, fields := [] }

def c6reg2 : ParsedRegister := { c6reg1 with device := "DEV00BC8D" }

set_option maxRecDepth 40000 in
/-- C6 counterexample: the two peripheral groups DEV008E1F/UART1 and DEV00BC8D/UART1
    hash to the same 8-hex-character md5 prefix, so their summary chunks (and likewise
    their detail chunks) receive the identical id "UART1_summary_93fb910d"; create_chunks
    keeps both with equal ids and appends no disambiguating suffix, refuting the claimed
    collision detection/resolution. -/
theorem claim_C6_counterexample :
    ((create_chunks [c6reg1, c6reg2]).map (fun c => c.id))[0]? =
        some "UART1_summary_93fb910d"
    ∧ ((create_chunks [c6reg1, c6reg2]).map (fun c => c.id))[2]? =
        some "UART1_summary_93fb910d"
    ∧ ¬ ((create_chunks [c6reg1, c6reg2]).map (fun c => c.id)).Nodup := by
  refine ⟨by decide, by decide, by decide⟩

/- ----------------------------------------------------------------------------
   C1: exact-identity deduplication.
   ---------------------------------------------------------------------------- -/

/-- The spec's words for exact dedup, in their most transparent form: keep each group's
    first occurrence, drop the remaining records of that group, and recurse. -/
def keepFirstOccurrences : List ParsedRegister → List ParsedRegister
  | [] => []
  | r :: rs =>
    r :: keepFirstOccurrences (rs.filter (fun x => decide (exactKey x ≠ exactKey r)))
termination_by l => l.length
decreasing_by
  simp only [List.length_cons]
  exact Nat.lt_succ_of_le (List.length_filter_le _ _)

theorem dedupExactAux_congr_seen :
    ∀ (l : List ParsedRegister) (s1 s2 : List ExactKey),
      (∀ a, a ∈ s1 ↔ a ∈ s2) → dedupExactAux s1 l = dedupExactAux s2 l := by
  intro l
  induction l with
  | nil => intro s1 s2 _; rfl
  | cons r rs ih =>
    intro s1 s2 hiff
    by_cases h : exactKey r ∈ s1
    · rw [dedupExactAux, if_pos h, dedupExactAux, if_pos ((hiff _).mp h)]
      exact ih s1 s2 hiff
    · rw [dedupExactAux, if_neg h, dedupExactAux, if_neg (fun h2 => h ((hiff _).mpr h2))]
      congr 1
      refine ih _ _ ?_
      intro a
      simp only [List.mem_cons, hiff a]

theorem dedupExactAux_cons_seen :
    ∀ (l : List ParsedRegister) (seen : List ExactKey) (k : ExactKey),
      dedupExactAux (k :: seen) l =
        dedupExactAux seen (l.filter (fun x => decide (exactKey x ≠ k))) := by
  intro l
  induction l with
  | nil => intro seen k; rfl
  | cons x xs ih =>
    intro seen k
    by_cases hk : exactKey x = k
    · rw [dedupExactAux, if_pos (List.mem_cons.mpr (Or.inl hk)), List.filter_cons]
      simp only [hk, ne_eq, not_true_eq_false, decide_False, Bool.false_eq_true, if_false]
      exact ih seen k
    · by_cases hs : exactKey x ∈ seen
      · rw [dedupExactAux, if_pos (List.mem_cons.mpr (Or.inr hs)), List.filter_cons]
        simp only [ne_eq, hk, not_false_eq_true, decide_True, if_true]
        rw [dedupExactAux, if_pos hs]
        exact ih seen k
      · have hmem : exactKey x ∉ k :: seen := by
          intro hm
          rcases List.mem_cons.mp hm with h | h
          · exact hk h
          · exact hs h
        rw [dedupExactAux, if_neg hmem, List.filter_cons]
        simp only [ne_eq, hk, not_false_eq_true, decide_True, if_true]
        rw [dedupExactAux, if_neg hs]
        congr 1
        rw [dedupExactAux_congr_seen xs (exactKey x :: k :: seen) (k :: exactKey x :: seen)
          (by intro a; simp [List.mem_cons]; tauto)]
        exact ih (exactKey x :: seen) k

theorem dedupExact_eq_keepFirstAux :
    ∀ (n : Nat) (regs : List ParsedRegister), regs.length ≤ n →
      dedupExactAux [] regs = keepFirstOccurrences regs := by
  intro n
  induction n with
  | zero =>
    intro regs h
    have : regs = [] := List.length_eq_zero.mp (Nat.le_zero.mp h)
    subst this
    simp [dedupExactAux, keepFirstOccurrences]
  | succ m ih =>
    intro regs h
    cases regs with
    | nil => simp [dedupExactAux, keepFirstOccurrences]
    | cons r rs =>
      rw [dedupExactAux, if_neg (List.not_mem_nil _), dedupExactAux_cons_seen,
        keepFirstOccurrences]
      congr 1
      exact ih _ (le_trans (List.length_filter_le _ _) (by simpa using h))

theorem keepFirst_covers :
    ∀ (n : Nat) (regs : List ParsedRegister), regs.length ≤ n →
      ∀ r ∈ regs, ∃ rp ∈ keepFirstOccurrences regs, exactKey rp = exactKey r := by
  intro n
  induction n with
  | zero =>
    intro regs h r hr
    have : regs = [] := List.length_eq_zero.mp (Nat.le_zero.mp h)
    subst this
    simp at hr
  | succ m ih =>
    intro regs h r hr
    cases regs with
    | nil => simp at hr
    | cons x xs =>
      rw [keepFirstOccurrences]
      rcases List.mem_cons.mp hr with hx | hr2
      · exact ⟨_, List.mem_cons_self _ _, congrArg exactKey hx.symm⟩
      · by_cases hkey : exactKey r = exactKey x
        · exact ⟨x, List.mem_cons_self _ _, hkey.symm⟩
        · have hmemf : r ∈ xs.filter (fun y => decide (exactKey y ≠ exactKey x)) := by
            rw [List.mem_filter]
            exact ⟨hr2, by simpa using hkey⟩
          have hlen : (xs.filter (fun y => decide (exactKey y ≠ exactKey x))).length ≤ m :=
            le_trans (List.length_filter_le _ _) (by simpa using h)
          rcases ih _ hlen r hmemf with ⟨rp, hrp, hk⟩
          exact ⟨rp, List.mem_cons_of_mem _ hrp, hk⟩

/-- C1: the exact-identity dedup stage invoked by the indexing entry point
    (deduplicate_registers_exact, modelled from the spec since its definition is not
    under src/) keeps exactly the first occurrence of each identically-keyed group and
    drops the rest; identical keys force identical devices, so two registers that
    differ in device are never merged — every input register is represented in the
    output by a record with its exact key (itself, or an earlier true duplicate). -/
theorem claim_C1_exact_dedup (regs : List ParsedRegister) :
    deduplicate_registers_exact regs = keepFirstOccurrences regs
    ∧ (∀ r1 r2 : ParsedRegister, exactKey r1 = exactKey r2 → r1.device = r2.device)
    ∧ ∀ r ∈ regs, ∃ rp ∈ deduplicate_registers_exact regs, exactKey rp = exactKey r := by
  have heq : deduplicate_registers_exact regs = keepFirstOccurrences regs :=
    dedupExact_eq_keepFirstAux regs.length regs (le_refl _)
  refine ⟨heq, ?_, ?_⟩
  · intro r1 r2 h
    exact congrArg ExactKey.device h
  · intro r hr
    rw [heq]
    exact keepFirst_covers regs.length regs (le_refl _) r hr

def c1regA : ParsedRegister :=
  { device := "STM32F405", device_series := none, peripheral := "UART4",
    peripheral_description := none, peripheral_group := none, register := "DR",
    register_description := none, base_address := "0x40004C00", address_offset := "0x04",
    full_address := "0x40004C04", size := 32, access := none, reset_value := none,
    fields := [] }

def c1regB : ParsedRegister := { c1regA with device := "STM32F407" }

def c1regA2 : ParsedRegister := { c1regA with register_description := some "duplicate" }

/-- C1 witness. -/
theorem claim_C1_witness :
    deduplicate_registers_exact [c1regA, c1regB, c1regA2] =
        keepFirstOccurrences [c1regA, c1regB, c1regA2]
    ∧ c1regA.device = c1regA2.device
    ∧ ∃ rp ∈ deduplicate_registers_exact [c1regA, c1regB, c1regA2],
        exactKey rp = exactKey c1regA2 :=
  ⟨(claim_C1_exact_dedup [c1regA, c1regB, c1regA2]).1,
   (claim_C1_exact_dedup [c1regA, c1regB, c1regA2]).2.1 c1regA c1regA2 (by decide),
   (claim_C1_exact_dedup [c1regA, c1regB, c1regA2]).2.2 c1regA2 (by decide)⟩

/- ----------------------------------------------------------------------------
   C4 and C10: generalized deduplication.
   ---------------------------------------------------------------------------- -/

theorem pySlice_pySlice (s : String) (n : Nat) : pySlice (pySlice s n) n = pySlice s n := by
  simp [pySlice, List.take_take]

theorem key_eq_of_fields (r1 r2 : ParsedRegister)
    (hpg : r1.peripheral_group = r2.peripheral_group) (hp : r1.peripheral = r2.peripheral)
    (hr : r1.register = r2.register) (hf : r1.fields = r2.fields) :
    _make_dedup_key r1 = _make_dedup_key r2 := by
  rw [_make_dedup_key, _make_dedup_key, hpg, hp, hr, hf]

theorem key_gen_peripheral (r1 r2 : ParsedRegister)
    (hpg : r1.peripheral_group = r2.peripheral_group)
    (hp : r1.peripheral = pyOrElse r2.peripheral_group (pySlice r2.peripheral 4))
    (hr : r1.register = r2.register) (hf : r1.fields = r2.fields) :
    _make_dedup_key r1 = _make_dedup_key r2 := by
  rw [_make_dedup_key, _make_dedup_key, hpg, hp, hr, hf]
  congr 1
  cases hpg2 : r2.peripheral_group with
  | none => simp [pyOrElse, pySlice_pySlice]
  | some s =>
    by_cases hs : s = "" <;> simp [pyOrElse, hs, pySlice_pySlice]

theorem headD_mem {α : Type} [Inhabited α] (l : List α) (h : l ≠ []) :
    l.headD default ∈ l := by
  cases l with
  | nil => exact absurd rfl h
  | cons x xs => exact List.mem_cons_self _ _

theorem key_mkRepresentative (g : List ParsedRegister) (k : String × String × String)
    (hne : g ≠ []) (hall : ∀ r ∈ g, _make_dedup_key r = k) :
    _make_dedup_key (mkRepresentative g) = k := by
  have hhead := headD_mem g hne
  by_cases h1 : g.length = 1
  · rw [mkRepresentative, if_pos h1]
    exact hall _ hhead
  · simp only [mkRepresentative, if_neg h1]
    split
    · split
      · refine Eq.trans (key_gen_peripheral _ (g.headD default) rfl rfl rfl rfl)
          (hall (g.headD default) hhead)
      · refine Eq.trans (key_eq_of_fields _ (g.headD default) rfl rfl rfl rfl)
          (hall (g.headD default) hhead)
    · split
      · refine Eq.trans (key_gen_peripheral _ (g.headD default) rfl rfl rfl rfl)
          (hall (g.headD default) hhead)
      · refine Eq.trans (key_eq_of_fields _ (g.headD default) rfl rfl rfl rfl)
          (hall (g.headD default) hhead)

theorem groupFor_all (regs : List ParsedRegister) (k : String × String × String) :
    ∀ r ∈ groupFor regs k, _make_dedup_key r = k := by
  intro r hr
  rw [groupFor, List.mem_filter] at hr
  simpa using hr.2

theorem groupFor_ne_nil (regs : List ParsedRegister) (k : String × String × String)
    (hk : k ∈ dedupFO (regs.map _make_dedup_key)) : groupFor regs k ≠ [] := by
  rw [mem_dedupFO] at hk
  rcases List.mem_map.mp hk with ⟨r, hr, rfl⟩
  intro hnil
  have hmem : r ∈ groupFor regs (_make_dedup_key r) := by
    rw [groupFor, List.mem_filter]
    exact ⟨hr, by simp⟩
  rw [hnil] at hmem
  exact List.not_mem_nil r hmem

theorem filter_map_comm {α β : Type} (f : α → β) (p : β → Bool) :
    ∀ l : List α, (l.map f).filter p = (l.filter (fun x => p (f x))).map f := by
  intro l
  induction l with
  | nil => rfl
  | cons x xs ih =>
    simp only [List.map_cons, List.filter_cons]
    by_cases h : p (f x) = true
    · rw [h]
      simp [ih]
    · rw [Bool.eq_false_iff.mpr h]
      simp [ih]

theorem key_mem_keys (regs : List ParsedRegister) (k : String × String × String)
    (hne : groupFor regs k ≠ []) : k ∈ dedupFO (regs.map _make_dedup_key) := by
  rw [mem_dedupFO]
  cases hg : groupFor regs k with
  | nil => exact absurd hg hne
  | cons r rest =>
    have hr : r ∈ groupFor regs k := by rw [hg]; exact List.mem_cons_self _ _
    rw [groupFor, List.mem_filter] at hr
    exact List.mem_map.mpr ⟨r, hr.1, by simpa using hr.2⟩

theorem dedup_filter_key (regs : List ParsedRegister) (k : String × String × String)
    (hne : groupFor regs k ≠ []) :
    (deduplicate_registers regs).filter (fun r => decide (_make_dedup_key r = k)) =
      [mkRepresentative (groupFor regs k)] := by
  have hk := key_mem_keys regs k hne
  rw [deduplicate_registers, filter_map_comm]
  have hcongr : (dedupFO (regs.map _make_dedup_key)).filter
      (fun k2 => decide (_make_dedup_key (mkRepresentative (groupFor regs k2)) = k)) =
      (dedupFO (regs.map _make_dedup_key)).filter (fun k2 => decide (k2 = k)) := by
    apply List.filter_congr
    intro k2 hk2
    rw [key_mkRepresentative (groupFor regs k2) k2 (groupFor_ne_nil regs k2 hk2)
      (groupFor_all regs k2)]
  rw [hcongr, filter_eq_singleton_of_nodup _ (nodup_dedupFO _) k hk]
  rfl

/-- The value of the last list member satisfying nothing in particular — the law of a
    Python dict built by repeated assignment: the last write to a key wins. -/
def lastVal (val : ParsedRegister → String) : List ParsedRegister → Option String
  | [] => none
  | r :: rs =>
    match lastVal val rs with
    | some a => some a
    | none => some (val r)

theorem dictLookup_dictInsert :
    ∀ (m : List (String × String)) (k v p : String),
      dictLookup (dictInsert m k v) p = if k = p then some v else dictLookup m p := by
  intro m
  induction m with
  | nil => intro k v p; rfl
  | cons kv rest ih =>
    rcases kv with ⟨k0, v0⟩
    intro k v p
    by_cases hk : k0 = k
    · subst hk
      rw [dictInsert, if_pos rfl]
      by_cases hp : k0 = p
      · rw [dictLookup, if_pos hp, if_pos hp]
      · rw [dictLookup, if_neg hp, if_neg hp, dictLookup, if_neg hp]
    · rw [dictInsert, if_neg hk]
      by_cases hp : k0 = p
      · have hkp : k ≠ p := fun h => hk (h ▸ hp.symm ▸ rfl)
        rw [dictLookup, if_pos hp, if_neg hkp, dictLookup, if_pos hp]
      · rw [dictLookup, if_neg hp, ih, dictLookup, if_neg hp]

theorem lookup_buildAddressMapAux :
    ∀ (g : List ParsedRegister) (m : List (String × String)) (p : String),
      dictLookup (g.foldl (fun m2 r =>
          dictInsert m2 (r.device ++ "/" ++ r.peripheral) r.full_address) m) p =
        match lastVal (fun x => x.full_address)
            (g.filter (fun x => decide (x.device ++ "/" ++ x.peripheral = p))) with
        | some a => some a
        | none => dictLookup m p := by
  intro g
  induction g with
  | nil => intro m p; rfl
  | cons r g2 ih =>
    intro m p
    rw [List.foldl_cons, ih, List.filter_cons]
    by_cases hp : r.device ++ "/" ++ r.peripheral = p
    · simp only [hp, decide_True, if_true, lastVal]
      cases lastVal (fun x => x.full_address)
          (g2.filter (fun x => decide (x.device ++ "/" ++ x.peripheral = p))) with
      | some a => rfl
      | none => simp [dictLookup_dictInsert, hp]
    · simp only [hp, decide_False, Bool.false_eq_true, if_false]
      cases lastVal (fun x => x.full_address)
          (g2.filter (fun x => decide (x.device ++ "/" ++ x.peripheral = p))) with
      | some a => rfl
      | none => simp [dictLookup_dictInsert, hp]

theorem lookup_buildAddressMap (g : List ParsedRegister) (p : String) :
    dictLookup (buildAddressMap g) p =
      match lastVal (fun x => x.full_address)
          (g.filter (fun x => decide (x.device ++ "/" ++ x.peripheral = p))) with
      | some a => some a
      | none => none := by
  rw [buildAddressMap, lookup_buildAddressMapAux]
  rfl

theorem filter_pair_singleton :
    ∀ (g : List ParsedRegister),
      (g.map (fun r => r.device ++ "/" ++ r.peripheral)).Nodup →
      ∀ r ∈ g, g.filter (fun x => decide (x.device ++ "/" ++ x.peripheral =
        r.device ++ "/" ++ r.peripheral)) = [r] := by
  intro g
  induction g with
  | nil => intro _ r hr; simp at hr
  | cons y ys ih =>
    intro hnd r hr
    rw [List.map_cons] at hnd
    rcases List.nodup_cons.mp hnd with ⟨hy, hys⟩
    rcases List.mem_cons.mp hr with rfl | hr2
    · rw [List.filter_cons]
      simp only [decide_True, if_true]
      have : ys.filter (fun x => decide (x.device ++ "/" ++ x.peripheral =
          r.device ++ "/" ++ r.peripheral)) = [] := by
        apply filter_eq_nil_of_forall
        intro x hx
        simp only [decide_eq_false_iff_not]
        intro hxy
        exact hy (hxy ▸ List.mem_map_of_mem _ hx)
      rw [this]
    · rw [List.filter_cons]
      have hne : (decide (y.device ++ "/" ++ y.peripheral =
          r.device ++ "/" ++ r.peripheral)) = false := by
        simp only [decide_eq_false_iff_not]
        intro h
        exact hy (h ▸ List.mem_map_of_mem _ hr2)
      rw [hne]
      simp only [Bool.false_eq_true, if_false]
      exact ih hys r hr2

theorem mkRepresentative_aggregates (g : List ParsedRegister) (h1 : g.length ≠ 1) :
    (mkRepresentative g).devices = some (sortedDedup (g.map (fun r => r.device)))
    ∧ (mkRepresentative g).peripheral_instances =
        some (sortedDedup (g.map (fun r => r.peripheral)))
    ∧ (mkRepresentative g).address_map = some (buildAddressMap g) := by
  simp only [mkRepresentative, if_neg h1]
  refine ⟨?_, ?_, ?_⟩ <;> (split <;> (try split) <;> rfl)

theorem mkRepresentative_identity (g : List ParsedRegister) (h1 : g.length ≠ 1) :
    (mkRepresentative g).register = (g.headD default).register
    ∧ (mkRepresentative g).register_description = (g.headD default).register_description
    ∧ (mkRepresentative g).full_address = (g.headD default).full_address
    ∧ (mkRepresentative g).fields = (g.headD default).fields
    ∧ (mkRepresentative g).peripheral_group = (g.headD default).peripheral_group := by
  simp only [mkRepresentative, if_neg h1]
  refine ⟨?_, ?_, ?_, ?_, ?_⟩ <;> (split <;> (try split) <;> rfl)

theorem mkRepresentative_peripheral (g : List ParsedRegister) (h1 : g.length ≠ 1) :
    (mkRepresentative g).peripheral =
      if 1 < (sortedDedup (g.map (fun r => r.peripheral))).length
      then pyOrElse (g.headD default).peripheral_group (pySlice (g.headD default).peripheral 4)
      else (g.headD default).peripheral := by
  simp only [mkRepresentative, if_neg h1]
  split <;> split <;> rfl

theorem mkRepresentative_device (g : List ParsedRegister) (h1 : g.length ≠ 1) :
    (mkRepresentative g).device =
      if 1 < (sortedDedup (g.map (fun r => r.device))).length
      then _get_device_family g
      else (g.headD default).device := by
  simp only [mkRepresentative, if_neg h1]
  split <;> split <;> rfl

/-- C4 (amended): for every input list and every dedup-key group with at least two
    members, deduplicate_registers emits exactly one representative for that key; its
    devices and peripheral_instances are the sorted distinct device/peripheral names of
    the group, and its address_map holds a "device/peripheral" entry for every member,
    mapping each such pair to the full address of the *last* group member bearing that
    pair — hence to each member's own full address whenever the members' pairs are
    pairwise distinct (as in the two-device A/B scenario). -/
theorem claim_C4_generalized_dedup (regs : List ParsedRegister)
    (k : String × String × String) (h2 : 2 ≤ (groupFor regs k).length) :
    (deduplicate_registers regs).filter (fun r => decide (_make_dedup_key r = k)) =
      [mkRepresentative (groupFor regs k)]
    ∧ (mkRepresentative (groupFor regs k)).devices =
        some (sortedDedup ((groupFor regs k).map (fun r => r.device)))
    ∧ (mkRepresentative (groupFor regs k)).peripheral_instances =
        some (sortedDedup ((groupFor regs k).map (fun r => r.peripheral)))
    ∧ (mkRepresentative (groupFor regs k)).address_map =
        some (buildAddressMap (groupFor regs k))
    ∧ (∀ r ∈ groupFor regs k,
        dictLookup (buildAddressMap (groupFor regs k)) (r.device ++ "/" ++ r.peripheral) =
          lastVal (fun x => x.full_address) ((groupFor regs k).filter
            (fun x => decide (x.device ++ "/" ++ x.peripheral =
              r.device ++ "/" ++ r.peripheral))))
    ∧ (((groupFor regs k).map (fun r => r.device ++ "/" ++ r.peripheral)).Nodup →
        ∀ r ∈ groupFor regs k,
          dictLookup (buildAddressMap (groupFor regs k))
            (r.device ++ "/" ++ r.peripheral) = some r.full_address) := by
  have h1 : (groupFor regs k).length ≠ 1 := by omega
  have hne : groupFor regs k ≠ [] := by
    intro h
    rw [h] at h2
    simp at h2
  rcases mkRepresentative_aggregates (groupFor regs k) h1 with ⟨ha, hb, hc⟩
  refine ⟨dedup_filter_key regs k hne, ha, hb, hc, ?_, ?_⟩
  · intro r hr
    rw [lookup_buildAddressMap]
    have hmem : r ∈ (groupFor regs k).filter (fun x =>
        decide (x.device ++ "/" ++ x.peripheral = r.device ++ "/" ++ r.peripheral)) := by
      rw [List.mem_filter]
      exact ⟨hr, by simp⟩
    cases hl : lastVal (fun x => x.full_address) ((groupFor regs k).filter
        (fun x => decide (x.device ++ "/" ++ x.peripheral =
          r.device ++ "/" ++ r.peripheral))) with
    | some a => rfl
    | none =>
      exfalso
      rcases hfe : (groupFor regs k).filter (fun x =>
          decide (x.device ++ "/" ++ x.peripheral =
            r.device ++ "/" ++ r.peripheral)) with _ | ⟨y, ys⟩
      · rw [hfe] at hmem; exact List.not_mem_nil r hmem
      · rw [hfe, lastVal] at hl
        cases h2 : lastVal (fun x => x.full_address) ys <;> rw [h2] at hl <;> simp at hl
  · intro hnd r hr
    rw [lookup_buildAddressMap, filter_pair_singleton (groupFor regs k) hnd r hr]
    rfl

def c4regX : ParsedRegister :=
  { device := "D", device_series := none, peripheral := "P", peripheral_description := none,
    peripheral_group := none, register := "R", register_description := none,
    base_address := "0x0", address_offset := "0x1", full_address := "0x1", size := 32,
    access := none, reset_value := none, fields := [] }

def c4regY : ParsedRegister := { c4regX with address_offset := "0x2", full_address := "0x2" }

/-- C4 counterexample: two registers with the same dedup key, same device and same
    peripheral but different full addresses merge into one representative whose
    address_map holds only the last member's address under "D/P", so the claim that the
    map sends "device/peripheral" to *the member's* full address for every member fails
    for the first member. -/
theorem claim_C4_counterexample :
    ∃ rep, deduplicate_registers [c4regX, c4regY] = [rep]
      ∧ ¬ (∀ r ∈ [c4regX, c4regY], ∃ m, rep.address_map = some m ∧
            dictLookup m (r.device ++ "/" ++ r.peripheral) = some r.full_address) := by
  refine ⟨mkRepresentative (groupFor [c4regX, c4regY] (_make_dedup_key c4regX)), ?_, ?_⟩
  · decide
  · decide

def c4regA : ParsedRegister :=
  { device := "A", device_series := none, peripheral := "PERIPH",
    peripheral_description := none, peripheral_group := none, register := "R",
    register_description := none, base_address := "0x0", address_offset := "0x10",
    full_address := "0x10", size := 32, access := none, reset_value := none,
    fields := [] }

def c4regB : ParsedRegister := { c4regA with device := "B", full_address := "0x20" }

/-- C4 witness: the A/B scenario — one representative, devices = [A, B], and
    address_map entries for both A/PERIPH and B/PERIPH with each member's address. -/
theorem claim_C4_witness :
    ((deduplicate_registers [c4regA, c4regB]).filter (fun r =>
        decide (_make_dedup_key r = _make_dedup_key c4regA)) =
      [mkRepresentative (groupFor [c4regA, c4regB] (_make_dedup_key c4regA))])
    ∧ (mkRepresentative (groupFor [c4regA, c4regB] (_make_dedup_key c4regA))).devices =
        some ["A", "B"]
    ∧ dictLookup (buildAddressMap (groupFor [c4regA, c4regB] (_make_dedup_key c4regA)))
        "A/PERIPH" = some "0x10"
    ∧ dictLookup (buildAddressMap (groupFor [c4regA, c4regB] (_make_dedup_key c4regA)))
        "B/PERIPH" = some "0x20" := by
  have h := claim_C4_generalized_dedup [c4regA, c4regB] (_make_dedup_key c4regA)
    (by decide)
  refine ⟨h.1, ?_, ?_, ?_⟩
  · rw [h.2.1]
    decide
  · have := h.2.2.2.2.2 (by decide) c4regA (by decide)
    simpa using this
  · have := h.2.2.2.2.2 (by decide) c4regB (by decide)
    simpa using this

/-- C10: for every merged group of two or more registers, the single record
    deduplicate_registers emits for that key is the group's first record with its
    aggregation attributes assigned (devices, peripheral_instances, address_map) and
    its peripheral/device overwritten with generalized values exactly when more than
    one peripheral instance / device merged; in particular, under the pre-dedup
    invariant that the first record carried no devices attribute, the emitted record
    differs from that input record (the in-place Python mutation is modelled
    functionally as this record update). -/
theorem claim_C10_representative_mutation (regs : List ParsedRegister)
    (k : String × String × String) (h2 : 2 ≤ (groupFor regs k).length) :
    ∃ rep, (deduplicate_registers regs).filter
        (fun r => decide (_make_dedup_key r = k)) = [rep]
      ∧ rep.register = ((groupFor regs k).headD default).register
      ∧ rep.register_description = ((groupFor regs k).headD default).register_description
      ∧ rep.full_address = ((groupFor regs k).headD default).full_address
      ∧ rep.fields = ((groupFor regs k).headD default).fields
      ∧ rep.peripheral_group = ((groupFor regs k).headD default).peripheral_group
      ∧ rep.devices = some (sortedDedup ((groupFor regs k).map (fun r => r.device)))
      ∧ rep.peripheral_instances =
          some (sortedDedup ((groupFor regs k).map (fun r => r.peripheral)))
      ∧ rep.address_map = some (buildAddressMap (groupFor regs k))
      ∧ rep.peripheral =
          (if 1 < (sortedDedup ((groupFor regs k).map (fun r => r.peripheral))).length
           then pyOrElse ((groupFor regs k).headD default).peripheral_group
             (pySlice ((groupFor regs k).headD default).peripheral 4)
           else ((groupFor regs k).headD default).peripheral)
      ∧ rep.device =
          (if 1 < (sortedDedup ((groupFor regs k).map (fun r => r.device))).length
           then _get_device_family (groupFor regs k)
           else ((groupFor regs k).headD default).device)
      ∧ (((groupFor regs k).headD default).devices = none →
          rep ≠ (groupFor regs k).headD default) := by
  have h1 : (groupFor regs k).length ≠ 1 := by omega
  have hne : groupFor regs k ≠ [] := by
    intro h
    rw [h] at h2
    simp at h2
  rcases mkRepresentative_aggregates (groupFor regs k) h1 with ⟨ha, hb, hc⟩
  rcases mkRepresentative_identity (groupFor regs k) h1 with ⟨hr1, hr2, hr3, hr4, hr5⟩
  refine ⟨mkRepresentative (groupFor regs k), dedup_filter_key regs k hne,
    hr1, hr2, hr3, hr4, hr5, ha, hb, hc,
    mkRepresentative_peripheral (groupFor regs k) h1,
    mkRepresentative_device (groupFor regs k) h1, ?_⟩
  intro h0 heq
  have hdev := congrArg ParsedRegister.devices heq
  rw [ha, h0] at hdev
  exact Option.noConfusion hdev

def c10regA : ParsedRegister :=
  { device := "STM32F405", device_series := none, peripheral := "SPI1",
    peripheral_description := none, peripheral_group := some "SPI", register := "CR1",
    register_description := none, base_address := "0x40013000", address_offset := "0x00",
    full_address := "0x40013000", size := 32, access := none, reset_value := none,
    fields := [] }

def c10regB : ParsedRegister := { c10regA with device := "STM32F407", peripheral := "SPI2" }

/-- C10 witness. -/
theorem claim_C10_witness :
    ∃ rep, (deduplicate_registers [c10regA, c10regB]).filter
        (fun r => decide (_make_dedup_key r = _make_dedup_key c10regA)) = [rep]
      ∧ rep.register =
          ((groupFor [c10regA, c10regB] (_make_dedup_key c10regA)).headD default).register := by
  rcases claim_C10_representative_mutation [c10regA, c10regB] (_make_dedup_key c10regA)
    (by decide) with ⟨rep, hfilter, hreg, _⟩
  exact ⟨rep, hfilter, hreg⟩

/- ----------------------------------------------------------------------------
   C3 and C7: ranking boosts and penalties.
   ---------------------------------------------------------------------------- -/

/-- A device-summary hit for a specific query: no family, register or penalty rule
    fires on it, so its score passes through post_process unchanged. -/
def c3hit : SearchResult :=
  { score := 1, source_id := "x", peripheral := "", register := "",
    ctype := "device_summary", text := "t" }

/-- C3 counterexample: for the query "uart" (which carries peripheral-family hints,
    i.e. a specific query), a device_summary hit's score is left at 1 by the ranking
    engine — it is not multiplied by 0.7, refuting the claimed summary down-weight. -/
theorem claim_C3_counterexample :
    (preprocess_query "uart").peripheral_hints ≠ []
    ∧ c3hit.ctype = "device_summary"
    ∧ (postProcessHit (preprocess_query "uart").peripheral_penalties
        (preprocess_query "uart") c3hit).score = 1
    ∧ ¬ ((postProcessHit (preprocess_query "uart").peripheral_penalties
        (preprocess_query "uart") c3hit).score = (7 / 10 : ℚ) * c3hit.score) := by
  have h3 : (postProcessHit (preprocess_query "uart").peripheral_penalties
      (preprocess_query "uart") c3hit).score = 1 := by decide
  refine ⟨by decide, rfl, h3, ?_⟩
  rw [h3]
  have hs : c3hit.score = 1 := rfl
  rw [hs]
  norm_num

/-- C3 (amended): the ranking engine applies no device-summary down-weight at all —
    a hit's post-boost score does not depend on its chunk type. -/
theorem claim_C3_no_summary_downweight (penaltyEnum : List String) (qi : QueryInfo)
    (r : SearchResult) (t1 t2 : String) :
    (postProcessHit penaltyEnum qi { r with ctype := t1 }).score =
      (postProcessHit penaltyEnum qi { r with ctype := t2 }).score := rfl

/-- The DMA scenario query of spec section 8. -/
def dmaQuery : String :=
  "Which DMA register on STM32F411 stores the number of data items to transfer?"

theorem pyStartsWith_pyUpper (s pre : String) (h : pyStartsWith s pre = true) :
    pyStartsWith (pyUpper s) (pyUpper pre) = true := by
  rw [pyStartsWith, List.isPrefixOf_iff_prefix] at h ⊢
  exact h.map Char.toUpper

theorem postProcessHit_penalty_factor (P : List String) (qi : QueryInfo)
    (r : SearchResult) (h : (firstMatch P (pyUpper r.peripheral)).isSome = true) :
    (postProcessHit P qi r).score = (postProcessHit [] qi r).score * (1 / 2 : ℚ)
    ∧ (postProcessHit P qi r).debug.peripheral_penalty = true := by
  simp only [firstMatch] at h
  constructor
  · simp only [postProcessHit, firstMatch, h, if_true, List.find?_nil,
      Option.isSome_none, Bool.false_eq_true, if_false]
  · simp only [postProcessHit, firstMatch]
    simp [h]

theorem postRerankHit_factor (P : List String) (r : SearchResult)
    (h : (firstMatch P (pyUpper r.peripheral)).isSome = true) :
    (postRerankHit P r).score = r.score * (1 / 10 : ℚ)
    ∧ (postRerankHit P r).debug.post_rerank_penalty = true := by
  rcases ho : firstMatch P (pyUpper r.peripheral) with _ | p
  · rw [ho] at h
    simp at h
  · simp [postRerankHit, ho]

/-- C7: on the DMA scenario query, the preprocessor's penalty set is exactly the
    OTG/USB prefixes, and every hit whose peripheral starts with "OTG" is multiplied by
    0.5 (on top of whatever boosts fired) in the pre-rerank pass and by 0.1 in the
    post-rerank pass, with the penalty flags recorded. -/
theorem claim_C7_dma_query_penalties (hit : SearchResult)
    (h : pyStartsWith hit.peripheral "OTG" = true) :
    (preprocess_query dmaQuery).peripheral_penalties = ["OTG", "OTG_FS", "OTG_HS", "USB"]
    ∧ (postProcessHit (preprocess_query dmaQuery).peripheral_penalties
          (preprocess_query dmaQuery) hit).score =
        (postProcessHit [] (preprocess_query dmaQuery) hit).score * (1 / 2 : ℚ)
    ∧ (postProcessHit (preprocess_query dmaQuery).peripheral_penalties
          (preprocess_query dmaQuery) hit).debug.peripheral_penalty = true
    ∧ (postRerankHit (preprocess_query dmaQuery).peripheral_penalties hit).score =
        hit.score * (1 / 10 : ℚ)
    ∧ (postRerankHit (preprocess_query dmaQuery).peripheral_penalties
          hit).debug.post_rerank_penalty = true := by
  have hpen : (preprocess_query dmaQuery).peripheral_penalties =
      ["OTG", "OTG_FS", "OTG_HS", "USB"] := by decide
  have hup : pyStartsWith (pyUpper hit.peripheral) "OTG" = true := by
    have h2 := pyStartsWith_pyUpper hit.peripheral "OTG" h
    rw [show pyUpper "OTG" = "OTG" from rfl] at h2
    exact h2
  have hsome : (firstMatch (preprocess_query dmaQuery).peripheral_penalties
      (pyUpper hit.peripheral)).isSome = true := by
    rw [hpen, firstMatch, List.find?_cons_of_pos _ hup]
    rfl
  rcases postProcessHit_penalty_factor (preprocess_query dmaQuery).peripheral_penalties
    (preprocess_query dmaQuery) hit hsome with ⟨hs1, hf1⟩
  rcases postRerankHit_factor (preprocess_query dmaQuery).peripheral_penalties hit
    hsome with ⟨hs2, hf2⟩
  exact ⟨hpen, hs1, hf1, hs2, hf2⟩

/-- An OTG-peripheral candidate hit for the C7 witness. -/
def c7hit : SearchResult :=
  { score := 1, source_id := "s", peripheral := "OTG_FS_GLOBAL", register := "GRXSTSR",
    ctype := "register", text := "t" }

/-- C7 witness. -/
theorem claim_C7_witness :
    (postProcessHit (preprocess_query dmaQuery).peripheral_penalties
        (preprocess_query dmaQuery) c7hit).score =
      (postProcessHit [] (preprocess_query dmaQuery) c7hit).score * (1 / 2 : ℚ)
    ∧ (postRerankHit (preprocess_query dmaQuery).peripheral_penalties c7hit).score =
        c7hit.score * (1 / 10 : ℚ) :=
  ⟨(claim_C7_dma_query_penalties c7hit (by decide)).2.1,
   (claim_C7_dma_query_penalties c7hit (by decide)).2.2.2.1⟩

/- ----------------------------------------------------------------------------
   C8 and C9: ordering stages and determinism.
   ---------------------------------------------------------------------------- -/

/-- Every equal-score pair (earlier, later) in the list is in ascending source-id
    order — the spec's tie-break property, as an executable check. -/
def tiesAscendingB : List SearchResult → Bool
  | [] => true
  | r :: rs =>
    rs.all (fun s => !(decide (r.score = s.score)) || strLe r.source_id s.source_id) &&
      tiesAscendingB rs

def c8hitA : SearchResult :=
  { score := 3, source_id := "b", peripheral := "PA", register := "",
    ctype := "register", text := "ta" }

def c8hitB : SearchResult :=
  { score := 1, source_id := "a", peripheral := "PB", register := "",
    ctype := "register", text := "tb" }

theorem c8_rerank_eval :
    rerank [c8hitA, c8hitB] [1, 3] (1 / 2) (1 / 2) none =
      [{ c8hitA with score := 2 }, { c8hitB with score := 2 }] := by
  have hA : (1 / 2 : ℚ) * c8hitA.score + (1 / 2) * 1 = 2 := by
    norm_num [c8hitA]
  have hB : (1 / 2 : ℚ) * c8hitB.score + (1 / 2) * 3 = 2 := by
    norm_num [c8hitB]
  simp only [rerank, List.zipWith, hA, hB, pySort, List.foldl, insertStable]
  norm_num [resultLt]

/-- C8 counterexample: after reranking (sort key: score only, Python's stable sort),
    two hits with equal combined score 2 appear as source ids ["b", "a"] — descending,
    because ties keep their pre-rerank relative order instead of ascending source id. -/
theorem claim_C8_counterexample :
    (rerank [c8hitA, c8hitB] [1, 3] (1 / 2) (1 / 2) none).map
        (fun r => (r.score, r.source_id)) = [((2 : ℚ), "b"), ((2 : ℚ), "a")]
    ∧ tiesAscendingB (rerank [c8hitA, c8hitB] [1, 3] (1 / 2) (1 / 2) none) = false := by
  rw [c8_rerank_eval]
  constructor
  · rfl
  · decide

theorem pairwise_take {α : Type} {R : α → α → Prop} {l : List α} (n : Nat)
    (h : l.Pairwise R) : (l.take n).Pairwise R :=
  h.sublist (List.take_sublist n l)

theorem scoreLt_asymm (a b : SearchResult) :
    (decide (b.score < a.score)) = true → (decide (a.score < b.score)) = false := by
  simp only [decide_eq_true_eq, decide_eq_false_iff_not]
  exact fun h h2 => absurd (lt_trans h h2) (lt_irrefl _)

theorem scoreLt_negtrans (a b c : SearchResult) :
    (decide (a.score < b.score)) = false → (decide (b.score < c.score)) = false →
      (decide (a.score < c.score)) = false := by
  simp only [decide_eq_false_iff_not]
  intro h1 h2
  exact fun h => h1 (lt_of_lt_of_le h (not_lt.mp h2))

/-- C8 (amended): after boosting, and after the post-rerank penalty pass whenever the
    penalty set is non-empty, results are sorted by descending score with equal scores
    in ascending source-id order; after reranking, results are sorted by descending
    score only — equal-score hits keep their pre-rerank relative order there (see the
    counterexample), and the penalty pass returns the reranked order unchanged when
    the penalty set is empty. -/
theorem claim_C8_ordering_stages (penaltyEnum : List String)
    (results : List SearchResult) (qi : QueryInfo) (rr : List ℚ) (hw rw2 : ℚ)
    (tk : Option Nat) (hqp : qi.peripheral_penalties ≠ []) :
    (post_process penaltyEnum results qi).Pairwise
      (fun a b => b.score < a.score ∨
        (a.score = b.score ∧ strLe a.source_id b.source_id = true))
    ∧ (_apply_post_rerank_penalties penaltyEnum results qi).Pairwise
      (fun a b => b.score < a.score ∨
        (a.score = b.score ∧ strLe a.source_id b.source_id = true))
    ∧ (rerank results rr hw rw2 tk).Pairwise (fun a b => b.score ≤ a.score) := by
  have hconv : ∀ a b : SearchResult, resultLt b a = false →
      b.score < a.score ∨ (a.score = b.score ∧ strLe a.source_id b.source_id = true) := by
    intro a b h
    rcases (resultLt_false_iff b a).mp h with ⟨h1, h2⟩
    rcases lt_or_eq_of_le (not_lt.mp h1) with h3 | h3
    · exact Or.inl h3
    · exact Or.inr ⟨h3.symm, h2 h3⟩
  refine ⟨?_, ?_, ?_⟩
  · exact (pairwise_pySort resultLt resultLt_asymm resultLt_negtrans _).imp
      (fun h => hconv _ _ h)
  · rw [_apply_post_rerank_penalties, if_neg hqp]
    exact (pairwise_pySort resultLt resultLt_asymm resultLt_negtrans _).imp
      (fun h => hconv _ _ h)
  · have hsorted := pairwise_pySort (fun a b : SearchResult => decide (b.score < a.score))
      scoreLt_asymm scoreLt_negtrans
      (List.zipWith (fun r s => { r with score := hw * r.score + rw2 * s }) results rr)
    have himp := hsorted.imp (fun {a b} h => not_lt.mp (by simpa using h))
    simp only [rerank]
    cases tk with
    | none => exact himp
    | some k => exact pairwise_take k himp

/-- C8 witness. -/
theorem claim_C8_witness :
    (post_process ["USB"] [c8hitA, c8hitB] (preprocess_query dmaQuery)).Pairwise
      (fun a b => b.score < a.score ∨
        (a.score = b.score ∧ strLe a.source_id b.source_id = true)) :=
  (claim_C8_ordering_stages ["USB"] [c8hitA, c8hitB] (preprocess_query dmaQuery)
    [] 1 1 none (by decide)).1

theorem firstMatch_any (s : String) :
    ∀ l : List String, (firstMatch l s).isSome = l.any (fun p => pyStartsWith s p) := by
  intro l
  induction l with
  | nil => rfl
  | cons p ps ih =>
    rw [firstMatch] at ih ⊢
    by_cases h : pyStartsWith s p = true
    · rw [List.find?_cons_of_pos _ h]
      simp [h]
    · rw [List.find?_cons_of_neg _ h, ih]
      simp [Bool.eq_false_iff.mpr h]

theorem firstMatch_isSome_perm (e1 e2 : List String) (h : e1.Perm e2) (s : String) :
    (firstMatch e1 s).isSome = (firstMatch e2 s).isSome := by
  rw [firstMatch_any s e1, firstMatch_any s e2]
  rw [Bool.eq_iff_iff, List.any_eq_true, List.any_eq_true]
  constructor
  · rintro ⟨x, hx, hp⟩
    exact ⟨x, h.mem_iff.mp hx, hp⟩
  · rintro ⟨x, hx, hp⟩
    exact ⟨x, h.mem_iff.mpr hx, hp⟩

theorem postProcessHit_perm (e1 e2 : List String) (h : e1.Perm e2) (qi : QueryInfo)
    (r : SearchResult) : postProcessHit e1 qi r = postProcessHit e2 qi r := by
  simp only [postProcessHit]
  rw [firstMatch_isSome_perm e1 e2 h (pyUpper r.peripheral)]

theorem post_process_perm (e1 e2 : List String) (h : e1.Perm e2)
    (results : List SearchResult) (qi : QueryInfo) :
    post_process e1 results qi = post_process e2 results qi := by
  rw [post_process, post_process]
  congr 1
  exact List.map_congr_left (fun r _ => postProcessHit_perm e1 e2 h qi r)

/-- The tie-break comparator on observable views. -/
def viewLt (a b : ℚ × String × String × String × String × String) : Bool :=
  decide (b.1 < a.1) || (decide (a.1 = b.1) && strLt a.2.1 b.2.1)

theorem map_insertStable {α β : Type} (f : α → β) (ltA : α → α → Bool)
    (ltB : β → β → Bool) (hc : ∀ a b, ltA a b = ltB (f a) (f b)) (x : α) :
    ∀ l : List α, (insertStable ltA x l).map f = insertStable ltB (f x) (l.map f) := by
  intro l
  induction l with
  | nil => rfl
  | cons b t ih =>
    by_cases h : ltA x b = true
    · have hb : ltB (f x) (f b) = true := by rw [← hc x b]; exact h
      simp [insertStable, h, hb]
    · have hb : ltB (f x) (f b) = false := by rw [← hc x b]; exact Bool.eq_false_iff.mpr h
      simp [insertStable, h, hb, ih]

theorem map_pySort {α β : Type} (f : α → β) (ltA : α → α → Bool) (ltB : β → β → Bool)
    (hc : ∀ a b, ltA a b = ltB (f a) (f b)) (l : List α) :
    (pySort ltA l).map f = pySort ltB (l.map f) := by
  suffices hgen : ∀ (l acc : List α),
      ((l.foldl (fun acc x => insertStable ltA x acc) acc).map f) =
        (l.map f).foldl (fun acc x => insertStable ltB x acc) (acc.map f) by
    exact hgen l []
  intro l
  induction l with
  | nil => intro acc; rfl
  | cons x xs ih =>
    intro acc
    rw [List.foldl_cons, List.map_cons, List.foldl_cons, ih,
      map_insertStable f ltA ltB hc]

theorem resultLt_viewLt (a b : SearchResult) :
    resultLt a b = viewLt (resultView a) (resultView b) := rfl

theorem resultView_postRerankHit_perm (e2 e2' : List String) (h : e2.Perm e2')
    (r : SearchResult) :
    resultView (postRerankHit e2 r) = resultView (postRerankHit e2' r) := by
  have hiso := firstMatch_isSome_perm e2 e2' h (pyUpper r.peripheral)
  rcases h1 : firstMatch e2 (pyUpper r.peripheral) with _ | p1 <;>
    rcases h2 : firstMatch e2' (pyUpper r.peripheral) with _ | p2
  · simp only [postRerankHit, h1, h2]
  · rw [h1, h2] at hiso
    simp at hiso
  · rw [h1, h2] at hiso
    simp at hiso
  · simp only [postRerankHit, h1, h2]
    rfl

theorem map_view_apply_penalties (e2 e2' : List String) (h : e2.Perm e2')
    (results : List SearchResult) (qi : QueryInfo) :
    (_apply_post_rerank_penalties e2 results qi).map resultView =
      (_apply_post_rerank_penalties e2' results qi).map resultView := by
  rw [_apply_post_rerank_penalties, _apply_post_rerank_penalties]
  by_cases hq : qi.peripheral_penalties = []
  · rw [if_pos hq, if_pos hq]
  · rw [if_neg hq, if_neg hq,
      map_pySort resultView resultLt viewLt resultLt_viewLt,
      map_pySort resultView resultLt viewLt resultLt_viewLt]
    congr 1
    rw [List.map_map, List.map_map]
    exact List.map_congr_left (fun r _ =>
      resultView_postRerankHit_perm e2 e2' h r)

/-- C9: search is deterministic — with the query, the store's fused hits, the
    cross-encoder scores and all parameters fixed, its observable output (scores,
    source ids, ordering, texts) is identical across invocations, in particular it does
    not depend on the iteration order of the two penalty sets, which is the only
    run-to-run varying input of the pipeline (CPython set iteration order). -/
theorem claim_C9_search_deterministic (e1 e1' e2 e2' : List String)
    (h1 : e1.Perm e1') (h2 : e2.Perm e2') (query : String) (base : List SearchResult)
    (use_reranker : Bool) (rr : List ℚ) (top_k rerank_top_n : Nat) :
    (search e1 e2 query base use_reranker rr top_k rerank_top_n).map resultView =
      (search e1' e2' query base use_reranker rr top_k rerank_top_n).map resultView := by
  rw [search, search, post_process_perm e1 e1' h1 base (preprocess_query query)]
  cases use_reranker with
  | false => rw [if_neg (fun h => Bool.noConfusion h), if_neg (fun h => Bool.noConfusion h)]
  | true =>
    rw [if_pos rfl, if_pos rfl, List.map_take, List.map_take,
      map_view_apply_penalties e2 e2' h2 _ (preprocess_query query)]

/-- C9 witness. -/
theorem claim_C9_witness :
    (search ["OTG", "USB"] ["USB", "STK"] dmaQuery [c7hit] true [1] 8 20).map resultView =
      (search ["USB", "OTG"] ["STK", "USB"] dmaQuery [c7hit] true [1] 8 20).map
        resultView :=
  claim_C9_search_deterministic ["OTG", "USB"] ["USB", "OTG"] ["USB", "STK"]
    ["STK", "USB"] (by decide) (by decide) dmaQuery [c7hit] true [1] 8 20
